import Mathlib

/-!
Verification of the MoltBoss task-marketplace backend.

The development shallowly embeds the repository's storage layer
(`src/server/storage.ts`), the request handlers (the Express routes), and
the payment-verification helpers (`src/server/services/solana.ts` and the
Helius wrapper).  The Redis store is modelled by association lists keyed by
strings (records) together with plain string lists used as sets (the index
sets `all_tasks`, `active_tasks`, `all_applications`,
`pending_applications`, per-task application sets, `all_agents`), and the
`stats` hash is a record of counters.  External effects (uuid generation,
`Date.now()`, wallet-address validation, the payment gateway, the Helius
fetch) enter as explicit parameters of each operation, so the whole system
becomes a deterministic step function on states, and sequential executions
are lists of operations folded over the initial (empty) state.
-/

set_option maxHeartbeats 1000000

namespace MoltBoss

/-! ## Key-value store primitives

`redis.get`/`redis.set` on record keys become `getKey`/`setKey` on
association lists; `redis.sadd`/`redis.srem` on index sets become
`addSet`/`remSet` on string lists. -/

/-- Look up a key in an association list (`redis.get`). -/
def getKey {α : Type} : List (String × α) → String → Option α
  | [], _ => none
  | (k', v) :: rest, k => if k = k' then some v else getKey rest k

/-- Store a value under a key (`redis.set`): replace the first binding of
the key if present, otherwise append a fresh binding. -/
def setKey {α : Type} : List (String × α) → String → α → List (String × α)
  | [], k, v => [(k, v)]
  | (k', v') :: rest, k, v =>
    if k' = k then (k, v) :: rest else (k', v') :: setKey rest k v

/-- Delete a key (`redis.del`). -/
def delKey {α : Type} (m : List (String × α)) (k : String) : List (String × α) :=
  m.filter (fun p => p.1 ≠ k)

/-- Add a member to an index set (`redis.sadd`). -/
def addSet (s : List String) (x : String) : List String :=
  if x ∈ s then s else x :: s

/-- Remove a member from an index set (`redis.srem`). -/
def remSet (s : List String) (x : String) : List String :=
  s.filter (fun y => y ≠ x)

theorem getKey_setKey_self {α : Type} (m : List (String × α)) (k : String) (v : α) :
    getKey (setKey m k v) k = some v := by
  induction m with
  | nil => simp [setKey, getKey]
  | cons p rest ih =>
    obtain ⟨k', v'⟩ := p
    by_cases h : k' = k
    · simp [setKey, h, getKey]
    · simp only [setKey, if_neg h, getKey]
      rw [if_neg (fun h' => h h'.symm), ih]

theorem getKey_setKey_ne {α : Type} (m : List (String × α)) (k k' : String) (v : α)
    (h : k' ≠ k) : getKey (setKey m k v) k' = getKey m k' := by
  induction m with
  | nil => simp [setKey, getKey, h]
  | cons p rest ih =>
    obtain ⟨q, w⟩ := p
    by_cases hp : q = k
    · subst hp
      simp only [setKey, if_pos rfl, getKey, if_neg h]
    · simp only [setKey, if_neg hp, getKey]
      by_cases hk' : k' = q
      · simp [hk']
      · simp [hk', ih]

theorem mem_setKey {α : Type} {m : List (String × α)} {k : String} {v : α} {q : String × α}
    (hq : q ∈ setKey m k v) : q = (k, v) ∨ q ∈ m := by
  induction m with
  | nil => simpa [setKey] using hq
  | cons p rest ih =>
    by_cases hp : p.1 = k
    · simp only [setKey, if_pos hp, List.mem_cons] at hq
      rcases hq with h | h
      · exact Or.inl h
      · exact Or.inr (List.mem_cons_of_mem _ h)
    · simp only [setKey, if_neg hp, List.mem_cons] at hq
      rcases hq with h | h
      · exact Or.inr (List.mem_cons.mpr (Or.inl h))
      · rcases ih h with h' | h'
        · exact Or.inl h'
        · exact Or.inr (List.mem_cons_of_mem _ h')

/-! ## Data model (`shared/schema.ts`)

Rewards and payment amounts are fractional SOL, modelled by `ℚ`;
timestamps (`Date.now()`) are naturals supplied by the caller as an
oracle.  The zod enum fields `proofType`, `difficulty` and `category` are
stored as strings, exactly as they are persisted in the JSON records. -/

/-- `applicationStatusSchema = z.enum(['pending', 'approved', 'rejected'])`. -/
inductive ApplicationStatus where
  | pending
  | approved
  | rejected
deriving DecidableEq, Repr

/-- A stored `Task` record (`taskSchema`). -/
structure Task where
  id : String
  title : String
  description : String
  instructions : String
  proofType : String
  reward : ℚ
  difficulty : String
  category : String
  active : Bool
  totalCompletions : ℕ
  maxCompletions : Option ℕ
  createdAt : ℕ
deriving DecidableEq, Repr

/-- `insertTaskSchema = taskSchema.omit(id, totalCompletions, createdAt)`. -/
structure InsertTask where
  title : String
  description : String
  instructions : String
  proofType : String
  reward : ℚ
  difficulty : String
  category : String
  active : Bool
  maxCompletions : Option ℕ
deriving DecidableEq, Repr

/-- `Partial<Task>` as it reaches `RedisStorage.updateTask`: every field
optionally present (`none` = key absent from the update object).  The `id`
field is omitted because `updateTask` always overwrites it with the
record's own id.  For `maxCompletions` the inner `Option` is the stored
value, so `some none` models an update that sets the field to `null`. -/
structure TaskUpdate where
  title : Option String := none
  description : Option String := none
  instructions : Option String := none
  proofType : Option String := none
  reward : Option ℚ := none
  difficulty : Option String := none
  category : Option String := none
  active : Option Bool := none
  totalCompletions : Option ℕ := none
  maxCompletions : Option (Option ℕ) := none
deriving DecidableEq, Repr

/-- The spread merge `{ ...task, ...updates, id }` in `updateTask`. -/
def mergeTask (t : Task) (u : TaskUpdate) : Task where
  id := t.id
  title := u.title.getD t.title
  description := u.description.getD t.description
  instructions := u.instructions.getD t.instructions
  proofType := u.proofType.getD t.proofType
  reward := u.reward.getD t.reward
  difficulty := u.difficulty.getD t.difficulty
  category := u.category.getD t.category
  active := u.active.getD t.active
  totalCompletions := u.totalCompletions.getD t.totalCompletions
  maxCompletions := u.maxCompletions.getD t.maxCompletions
  createdAt := t.createdAt

/-- A stored `Application` record (`applicationSchema`). -/
structure Application where
  id : String
  taskId : String
  taskTitle : String
  walletAddress : String
  proofType : String
  proofContent : String
  status : ApplicationStatus
  submittedAt : ℕ
  reviewedAt : Option ℕ := none
  paidAt : Option ℕ := none
  txSignature : Option String := none
deriving DecidableEq, Repr

/-- `insertApplicationSchema`: the request body of an application submission. -/
structure InsertApplication where
  taskId : String
  walletAddress : String
  proofContent : String
deriving DecidableEq, Repr

/-- `Partial<Application>` as it reaches `RedisStorage.updateApplication`
(the `id` field is always overwritten with the record's own id). -/
structure ApplicationUpdate where
  taskId : Option String := none
  taskTitle : Option String := none
  walletAddress : Option String := none
  proofType : Option String := none
  proofContent : Option String := none
  status : Option ApplicationStatus := none
  submittedAt : Option ℕ := none
  reviewedAt : Option ℕ := none
  paidAt : Option ℕ := none
  txSignature : Option String := none
deriving DecidableEq, Repr

/-- The spread merge `{ ...app, ...updates, id }` in `updateApplication`. -/
def mergeApplication (a : Application) (u : ApplicationUpdate) : Application where
  id := a.id
  taskId := u.taskId.getD a.taskId
  taskTitle := u.taskTitle.getD a.taskTitle
  walletAddress := u.walletAddress.getD a.walletAddress
  proofType := u.proofType.getD a.proofType
  proofContent := u.proofContent.getD a.proofContent
  status := u.status.getD a.status
  submittedAt := u.submittedAt.getD a.submittedAt
  reviewedAt := u.reviewedAt.or a.reviewedAt
  paidAt := u.paidAt.or a.paidAt
  txSignature := u.txSignature.or a.txSignature

/-- A stored `Agent` record (`agentSchema`). -/
structure Agent where
  id : String
  name : String
  walletAddress : String
  apiKey : String
  paymentTxSignature : String
  paymentAmount : ℚ
  createdAt : ℕ
  active : Bool
  tasksCreated : ℕ
deriving DecidableEq, Repr

/-- The `stats` hash (`statsSchema`); `totalPayouts` accumulates rewards
so it is rational, the other counters are only ever incremented by 1. -/
structure Stats where
  totalTasks : ℕ := 0
  totalApplications : ℕ := 0
  totalPayouts : ℚ := 0
  totalAgents : ℕ := 0
  totalCompletedTasks : ℕ := 0
deriving DecidableEq, Repr

/-! ## Storage state

One field per Redis key family used by `RedisStorage`. -/

/-- The whole persisted state of the system. -/
structure St where
  tasks : List (String × Task) := []
  allTasks : List String := []
  activeTasks : List String := []
  applications : List (String × Application) := []
  allApplications : List String := []
  pendingApplications : List String := []
  taskApplications : List (String × List String) := []
  agents : List (String × Agent) := []
  agentByApiKey : List (String × String) := []
  agentByWallet : List (String × String) := []
  allAgents : List String := []
  stats : Stats := {}
deriving DecidableEq, Repr

/-- The empty store every execution starts from. -/
def St0 : St := {}

/-! ## Storage operations (`RedisStorage`)

Each method becomes a pure function on `St`; fresh ids and timestamps are
parameters (uuid / `Date.now()` oracles). -/

/-- `RedisStorage.getTask`. -/
def getTask (st : St) (id : String) : Option Task :=
  getKey st.tasks id

/-- `RedisStorage.getApplication`. -/
def getApplication (st : St) (id : String) : Option Application :=
  getKey st.applications id

/-- `RedisStorage.getAgent`. -/
def getAgent (st : St) (id : String) : Option Agent :=
  getKey st.agents id

/-- `RedisStorage.getAgentByWallet`: wallet-index lookup, then record fetch. -/
def getAgentByWallet (st : St) (wallet : String) : Option Agent :=
  match getKey st.agentByWallet wallet with
  | none => none
  | some agentId => getAgent st agentId

/-- `RedisStorage.incrementStat(key, amount)`; the `stats` hash uses
`hincrbyfloat`, so each field update is an in-place addition. -/
def incStatTotalTasks (st : St) : St := { st with stats := { st.stats with totalTasks := st.stats.totalTasks + 1 } }

/-- `incrementStat('totalApplications')`. -/
def incStatTotalApplications (st : St) : St := { st with stats := { st.stats with totalApplications := st.stats.totalApplications + 1 } }

/-- `incrementStat('totalAgents')`. -/
def incStatTotalAgents (st : St) : St := { st with stats := { st.stats with totalAgents := st.stats.totalAgents + 1 } }

/-- `incrementStat('totalCompletedTasks')`. -/
def incStatTotalCompletedTasks (st : St) : St := { st with stats := { st.stats with totalCompletedTasks := st.stats.totalCompletedTasks + 1 } }

/-- `incrementStat('totalPayouts', amount)`. -/
def incStatTotalPayouts (st : St) (amount : ℚ) : St := { st with stats := { st.stats with totalPayouts := st.stats.totalPayouts + amount } }

/-- `RedisStorage.createTask`: build the record from the insert payload,
store it, add it to `all_tasks` (and `active_tasks` when active), and bump
`totalTasks`. -/
def createTask (st : St) (insertTask : InsertTask) (id : String) (now : ℕ) : St × Task :=
  let task : Task :=
    { id := id
      title := insertTask.title
      description := insertTask.description
      instructions := insertTask.instructions
      proofType := insertTask.proofType
      reward := insertTask.reward
      difficulty := insertTask.difficulty
      category := insertTask.category
      active := insertTask.active
      maxCompletions := insertTask.maxCompletions
      totalCompletions := 0
      createdAt := now }
  let st := { st with tasks := setKey st.tasks id task }
  let st := { st with allTasks := addSet st.allTasks id }
  let st := if task.active then { st with activeTasks := addSet st.activeTasks id } else st
  (incStatTotalTasks st, task)

/-- `RedisStorage.updateTask`: fetch, merge (`{ ...task, ...updates, id }`),
store, and maintain the `active_tasks` set when the update carries an
`active` field. -/
def updateTask (st : St) (id : String) (updates : TaskUpdate) : St × Option Task :=
  match getTask st id with
  | none => (st, none)
  | some task =>
    let updatedTask := mergeTask task updates
    let st := { st with tasks := setKey st.tasks id updatedTask }
    let st :=
      match updates.active with
      | none => st
      | some b =>
        if b then { st with activeTasks := addSet st.activeTasks id }
        else { st with activeTasks := remSet st.activeTasks id }
    (st, some updatedTask)

/-- `RedisStorage.deleteTask`: remove the record and both index entries. -/
def deleteTask (st : St) (id : String) : St × Bool :=
  match getTask st id with
  | none => (st, false)
  | some _ =>
    ({ st with
        tasks := delKey st.tasks id
        allTasks := remSet st.allTasks id
        activeTasks := remSet st.activeTasks id }, true)

/-- `RedisStorage.incrementTaskCompletions`: read-modify-write of
`totalCompletions` through `updateTask`, then bump `totalCompletedTasks`. -/
def incrementTaskCompletions (st : St) (id : String) : St :=
  match getTask st id with
  | none => st
  | some task =>
    let st := (updateTask st id { totalCompletions := some (task.totalCompletions + 1) }).1
    incStatTotalCompletedTasks st

/-- `RedisStorage.createApplication`: store a `pending` record denormalizing
the task title and proof type, maintain the three index sets, and bump
`totalApplications`. -/
def createApplication (st : St) (app : InsertApplication) (taskTitle : String)
    (proofType : String) (id : String) (now : ℕ) : St × Application :=
  let application : Application :=
    { id := id
      taskId := app.taskId
      taskTitle := taskTitle
      walletAddress := app.walletAddress
      proofType := proofType
      proofContent := app.proofContent
      status := .pending
      submittedAt := now }
  let st := { st with applications := setKey st.applications id application }
  let st := { st with allApplications := addSet st.allApplications id }
  let st := { st with pendingApplications := addSet st.pendingApplications id }
  let st := { st with
      taskApplications :=
        setKey st.taskApplications app.taskId
          (addSet ((getKey st.taskApplications app.taskId).getD []) id) }
  (incStatTotalApplications st, application)

/-- `RedisStorage.updateApplication`: fetch, merge, store, and drop the id
from `pending_applications` when the update carries a non-`pending`
status (the JS truthiness test `updates.status && updates.status !== 'pending'`). -/
def updateApplication (st : St) (id : String) (updates : ApplicationUpdate) :
    St × Option Application :=
  match getApplication st id with
  | none => (st, none)
  | some app =>
    let updatedApp := mergeApplication app updates
    let st := { st with applications := setKey st.applications id updatedApp }
    let st :=
      match updates.status with
      | some s => if s ≠ .pending then { st with pendingApplications := remSet st.pendingApplications id } else st
      | none => st
    (st, some updatedApp)

/-- `RedisStorage.createAgent`: store the record, both secondary lookup
keys, the `all_agents` index, and bump `totalAgents`. -/
def createAgent (st : St) (name walletAddress txSignature : String)
    (paymentAmount : ℚ) (id apiKey : String) (now : ℕ) : St × Agent :=
  let agent : Agent :=
    { id := id
      name := name
      walletAddress := walletAddress
      apiKey := apiKey
      paymentTxSignature := txSignature
      paymentAmount := paymentAmount
      createdAt := now
      active := true
      tasksCreated := 0 }
  let st := { st with agents := setKey st.agents id agent }
  let st := { st with agentByApiKey := setKey st.agentByApiKey apiKey id }
  let st := { st with agentByWallet := setKey st.agentByWallet walletAddress id }
  let st := { st with allAgents := addSet st.allAgents id }
  (incStatTotalAgents st, agent)

/-- `RedisStorage.incrementAgentTasksCreated`. -/
def incrementAgentTasksCreated (st : St) (id : String) : St :=
  match getAgent st id with
  | none => st
  | some agent =>
    { st with agents := setKey st.agents id { agent with tasksCreated := agent.tasksCreated + 1 } }

/-! ## List operations with newest-first sort

`Array.prototype.sort((a, b) => b.t - a.t)` becomes an insertion sort on a
descending numeric key; only membership matters to the claims. -/

/-- Insert into a list kept in descending key order. -/
def insertDesc {α : Type} (key : α → ℕ) (x : α) : List α → List α
  | [] => [x]
  | y :: ys => if key y < key x then x :: y :: ys else y :: insertDesc key x ys

/-- Sort a list into descending key order. -/
def sortDesc {α : Type} (key : α → ℕ) (l : List α) : List α :=
  l.foldr (insertDesc key) []

theorem mem_insertDesc {α : Type} (key : α → ℕ) (x a : α) (l : List α) :
    a ∈ insertDesc key x l ↔ a = x ∨ a ∈ l := by
  induction l with
  | nil => simp [insertDesc]
  | cons y ys ih =>
    by_cases h : key y < key x
    · simp [insertDesc, h]
    · simp [insertDesc, h, ih]
      tauto

theorem mem_sortDesc {α : Type} (key : α → ℕ) (a : α) (l : List α) :
    a ∈ sortDesc key l ↔ a ∈ l := by
  induction l with
  | nil => simp [sortDesc]
  | cons y ys ih =>
    simp only [sortDesc, List.foldr] at ih ⊢
    rw [mem_insertDesc, ih, List.mem_cons]

/-- `RedisStorage.getAllTasks`: iterate `all_tasks`, skip ids whose record
is missing, sort newest-first. -/
def getAllTasks (st : St) : List Task :=
  if st.allTasks.isEmpty then []
  else sortDesc Task.createdAt (st.allTasks.filterMap (getTask st))

/-- `RedisStorage.getActiveTasks`: iterate `active_tasks`, keep only records
that exist and have `active = true`, sort newest-first. -/
def getActiveTasks (st : St) : List Task :=
  if st.activeTasks.isEmpty then []
  else
    sortDesc Task.createdAt
      (st.activeTasks.filterMap (fun id =>
        match getTask st id with
        | some task => if task.active then some task else none
        | none => none))

/-- `RedisStorage.getPendingApplications`: iterate `pending_applications`,
keep only records that exist and are still `pending`, sort newest-first. -/
def getPendingApplications (st : St) : List Application :=
  if st.pendingApplications.isEmpty then []
  else
    sortDesc Application.submittedAt
      (st.pendingApplications.filterMap (fun id =>
        match getApplication st id with
        | some app => if app.status = .pending then some app else none
        | none => none))

/-- `RedisStorage.getAllApplications`: iterate `all_applications`, skip ids
whose record is missing, sort newest-first. -/
def getAllApplications (st : St) : List Application :=
  if st.allApplications.isEmpty then []
  else sortDesc Application.submittedAt (st.allApplications.filterMap (getApplication st))

/-- `RedisStorage.getApplicationsByTask`: iterate the per-task application
set (`smembers` of an absent set is empty), skip ids whose record is
missing, sort newest-first. -/
def getApplicationsByTask (st : St) (taskId : String) : List Application :=
  if ((getKey st.taskApplications taskId).getD []).isEmpty then []
  else
    sortDesc Application.submittedAt
      (((getKey st.taskApplications taskId).getD []).filterMap (getApplication st))

/-- `RedisStorage.getAllAgents`: iterate `all_agents`, skip ids whose
record is missing, sort newest-first. -/
def getAllAgents (st : St) : List Agent :=
  if st.allAgents.isEmpty then []
  else sortDesc Agent.createdAt (st.allAgents.filterMap (getAgent st))

/-! ## External collaborators as oracles -/

/-- Result of `sendPayment` (`src/server/services/solana.ts`): success with
a transaction signature, or failure with an error message. -/
inductive PaymentResult where
  | ok (signature : String)
  | fail (error : String)
deriving DecidableEq, Repr

/-- `true` exactly on `PaymentResult.ok`. -/
def PaymentResult.success : PaymentResult → Bool
  | .ok _ => true
  | .fail _ => false

/-- The `TransferVerification` result of the Helius wrapper. -/
structure TransferVerification where
  valid : Bool
  amount : Option ℚ := none
  error : Option String := none
deriving DecidableEq, Repr

/-! ## Request handlers (`registerRoutes`)

Each state-changing route becomes a function `St → inputs → St × outcome`.
Request parsing, authentication and the zod schema checks are out of scope
(the spec treats them as external collaborators); handlers receive
already-parsed bodies.  `isValidWalletAddress` is an external check and
enters as a boolean parameter. -/

/-- Outcome of `POST /api/applications` (and `POST /api/agent/apply`). -/
inductive SubmitOutcome where
  | invalidWallet
  | taskNotFound
  | taskInactive
  | noSlots
  | created (app : Application)
deriving DecidableEq, Repr

/-- The JS capacity guard
`task.maxCompletions && task.totalCompletions >= task.maxCompletions`:
an absent (or zero, hence falsy) `maxCompletions` disables the check. -/
def capacityFull (task : Task) : Bool :=
  match task.maxCompletions with
  | none => false
  | some m => if m = 0 then false else decide (m ≤ task.totalCompletions)

/-- `POST /api/applications`: validate the wallet, re-fetch the task, check
it is active and has free slots, then create the `pending` application. -/
def submitApplication (st : St) (input : InsertApplication) (walletOk : Bool)
    (id : String) (now : ℕ) : St × SubmitOutcome :=
  if !walletOk then (st, .invalidWallet)
  else
    match getTask st input.taskId with
    | none => (st, .taskNotFound)
    | some task =>
      if !task.active then (st, .taskInactive)
      else if capacityFull task then (st, .noSlots)
      else
        let (st, app) := createApplication st input task.title task.proofType id now
        (st, .created app)

/-- The review decision parsed from the request body; the route rejects any
body whose `status` is neither `approved` nor `rejected` before touching
the store. -/
inductive Decision where
  | approve
  | reject
deriving DecidableEq, Repr

/-- Outcome of `PUT /api/admin/applications/:id`. -/
inductive ReviewOutcome where
  | notFound
  | alreadyReviewed
  | taskNotFound
  | paymentFailed (error : String)
  | reviewed (app : Option Application)
deriving DecidableEq, Repr

/-- `true` on every error outcome of the review route. -/
def ReviewOutcome.isErr : ReviewOutcome → Bool
  | .reviewed _ => false
  | _ => true

/-- `PUT /api/admin/applications/:id`: approve or reject a pending
application.  On approval the task is re-fetched, the payment gateway is
invoked (its result is the `pay` oracle), and only on success are the
completion counter, the payout stats and the application record updated. -/
def reviewApplication (st : St) (applicationId : String) (d : Decision) (now : ℕ)
    (pay : PaymentResult) : St × ReviewOutcome :=
  match getApplication st applicationId with
  | none => (st, .notFound)
  | some application =>
    if application.status ≠ .pending then (st, .alreadyReviewed)
    else
      match d with
      | .reject =>
        let updates : ApplicationUpdate := { status := some .rejected, reviewedAt := some now }
        let (st, updatedApp) := updateApplication st applicationId updates
        (st, .reviewed updatedApp)
      | .approve =>
        match getTask st application.taskId with
        | none => (st, .taskNotFound)
        | some task =>
          match pay with
          | .fail e => (st, .paymentFailed e)
          | .ok signature =>
            let updates : ApplicationUpdate :=
              { status := some .approved
                reviewedAt := some now
                txSignature := some signature
                paidAt := some now }
            let st := incrementTaskCompletions st application.taskId
            let st := incStatTotalPayouts st task.reward
            let (st, updatedApp) := updateApplication st applicationId updates
            (st, .reviewed updatedApp)

/-- Outcome of `POST /api/agent/register`. -/
inductive RegisterOutcome where
  | invalidWallet
  | walletTaken
  | verificationFailed (error : Option String)
  | created (agent : Agent)
deriving DecidableEq, Repr

/-- `POST /api/agent/register`: validate the wallet address, reject a
wallet already bound to an agent, verify the registration payment (the
`verification` oracle), then create the agent with the verified amount
(`verification.amount!`, modelled by `getD 0`). -/
def registerAgent (st : St) (name wallet txSignature : String) (walletOk : Bool)
    (verification : TransferVerification) (id apiKey : String) (now : ℕ) :
    St × RegisterOutcome :=
  if !walletOk then (st, .invalidWallet)
  else
    match getAgentByWallet st wallet with
    | some _ => (st, .walletTaken)
    | none =>
      if !verification.valid then (st, .verificationFailed verification.error)
      else
        let (st, agent) := createAgent st name wallet txSignature
          (verification.amount.getD 0) id apiKey now
        (st, .created agent)

/-- `POST /api/agent/tasks` / `POST /api/admin/tasks`: create a task and,
for the agent route, bump the creating agent's `tasksCreated` counter. -/
def createTaskRoute (st : St) (input : InsertTask) (agentId : Option String)
    (id : String) (now : ℕ) : St × Task :=
  let (st, task) := createTask st input id now
  match agentId with
  | none => (st, task)
  | some aid => (incrementAgentTasksCreated st aid, task)

/-- `PUT /api/admin/tasks/:id`: the raw, unvalidated request body is merged
onto the stored record by `updateTask` (the route's own pre-fetch only
duplicates the not-found check inside `updateTask`). -/
def adminUpdateTask (st : St) (id : String) (updates : TaskUpdate) : St × Option Task :=
  updateTask st id updates

/-! ## Sequential executions -/

/-- One state-changing request, together with the oracle data (fresh ids,
timestamps, wallet-validation, payment and verification results) consumed
while handling it. -/
inductive Op where
  | createTask (input : InsertTask) (agentId : Option String) (id : String) (now : ℕ)
  | updateTask (id : String) (updates : TaskUpdate)
  | deleteTask (id : String)
  | submitApplication (input : InsertApplication) (walletOk : Bool) (id : String) (now : ℕ)
  | review (applicationId : String) (d : Decision) (now : ℕ) (pay : PaymentResult)
  | registerAgent (name wallet txSignature : String) (walletOk : Bool)
      (verification : TransferVerification) (id apiKey : String) (now : ℕ)
deriving DecidableEq, Repr

/-- The state reached after handling one request. -/
def step (st : St) : Op → St
  | .createTask input agentId id now => (createTaskRoute st input agentId id now).1
  | .updateTask id updates => (adminUpdateTask st id updates).1
  | .deleteTask id => (deleteTask st id).1
  | .submitApplication input walletOk id now => (submitApplication st input walletOk id now).1
  | .review applicationId d now pay => (reviewApplication st applicationId d now pay).1
  | .registerAgent name wallet txSignature walletOk verification id apiKey now =>
      (registerAgent st name wallet txSignature walletOk verification id apiKey now).1

/-- The state reached by a sequential execution from the empty store. -/
def run (ops : List Op) : St :=
  ops.foldl step St0

/-! ## Payment verification (the Helius wrapper)

`verifyTransfer` posts the signature to the Helius transactions endpoint
and inspects `transactions[0]`.  The network interaction is the oracle
parameter `fetched`: `none` models a non-OK HTTP response, `some txs` the
parsed JSON body. -/

/-- One entry of `nativeTransfers`; `amount` is in lamports. -/
structure NativeTransfer where
  fromUserAccount : String
  toUserAccount : String
  amount : ℚ
deriving DecidableEq, Repr

/-- A transaction as returned by the Helius API (the fields the code
reads).  `transactionError` is `string | null`, `nativeTransfers` may be
absent. -/
structure HeliusTransaction where
  signature : String
  timestamp : ℕ
  transactionError : Option String := none
  nativeTransfers : Option (List NativeTransfer) := none
deriving DecidableEq, Repr

/-- JS truthiness of the `string | null` field `transactionError`:
`null` and the empty string are falsy. -/
def truthyError : Option String → Bool
  | none => false
  | some s => s ≠ ""

/-- The wallet all registration fees must be sent to
(`REGISTRATION_WALLET` in the Helius service). -/
def REGISTRATION_WALLET : String := "CKpRpJ2JTi7LuvoMRp4wKdzZbW6gZHhY612Rz5fLwpJ8"

/-- The fixed registration fee in SOL (`REGISTRATION_FEE = 0.1`). -/
def REGISTRATION_FEE : ℚ := 1 / 10

/-- `verifyTransfer(txSignature, fromWallet, toWallet, minAmount)`: the
fetch result for the referenced signature stands in for the network call.
The loop over `tx.nativeTransfers || []` becomes `List.find?`. -/
def verifyTransfer (fetched : Option (List HeliusTransaction))
    (fromWallet toWallet : String) (minAmount : ℚ) : TransferVerification :=
  match fetched with
  | none => { valid := false, error := some "Failed to fetch transaction from Helius" }
  | some transactions =>
    match transactions.head? with
    | none => { valid := false, error := some "Transaction not found" }
    | some tx =>
      if truthyError tx.transactionError then
        { valid := false, error := some "Transaction failed on chain" }
      else
        match (tx.nativeTransfers.getD []).find? (fun transfer =>
            transfer.fromUserAccount = fromWallet ∧
            transfer.toUserAccount = toWallet ∧
            minAmount * 1000000000 ≤ transfer.amount) with
        | some transfer => { valid := true, amount := some (transfer.amount / 1000000000) }
        | none => { valid := false, error := some "No matching transfer found in transaction" }

/-- `verifyRegistrationPayment(txSignature, fromWallet)` delegates to
`verifyTransfer` with the fixed registration wallet and fee. -/
def verifyRegistrationPayment (fetched : Option (List HeliusTransaction))
    (fromWallet : String) : TransferVerification :=
  verifyTransfer fetched fromWallet REGISTRATION_WALLET REGISTRATION_FEE

/-! ## Claim C1: failed approvals commit nothing -/

/-- C1: a review request approving a pending Application aborts with an
error and changes no state at all (so the Application stays `pending`, the
Task's `totalCompletions` is untouched and no Stats counter moves) whenever
the referenced Task is missing or the Payment Gateway reports failure. -/
theorem approve_abort_commits_nothing (st : St) (applicationId : String) (now : ℕ)
    (pay : PaymentResult) (app : Application)
    (happ : getApplication st applicationId = some app)
    (hpending : app.status = .pending)
    (habort : getTask st app.taskId = none ∨ pay.success = false) :
    (reviewApplication st applicationId .approve now pay).1 = st ∧
    ((reviewApplication st applicationId .approve now pay).2).isErr = true := by
  rcases habort with h | h
  · simp [reviewApplication, happ, hpending, h, ReviewOutcome.isErr]
  · cases pay with
    | ok s => simp [PaymentResult.success] at h
    | fail e =>
      cases h' : getTask st app.taskId with
      | none => simp [reviewApplication, happ, hpending, h', ReviewOutcome.isErr]
      | some t => simp [reviewApplication, happ, hpending, h', ReviewOutcome.isErr]

/-- Witness for C1 at a concrete state: one pending application whose
payment attempt fails. -/
def c1App : Application :=
  { id := "a1", taskId := "t1", taskTitle := "T", walletAddress := "w"
    proofType := "text", proofContent := "p", status := .pending, submittedAt := 0 }

/-- The concrete one-application store used by the C1 witness. -/
def c1St : St := { applications := [("a1", c1App)] }

theorem approve_abort_commits_nothing_witness :
    (reviewApplication c1St "a1" .approve 5 (.fail "rpc down")).1 = c1St ∧
    ((reviewApplication c1St "a1" .approve 5 (.fail "rpc down")).2).isErr = true :=
  approve_abort_commits_nothing c1St "a1" 5 (.fail "rpc down") c1App (by decide)
    (by decide) (Or.inl (by decide))

/-! ## Claim C3: review is terminal -/

/-- C3: reviewing an Application that is no longer `pending` fails with the
already-reviewed error, changes no state, and never consults the payment
gateway (the outcome is the same for every possible payment result). -/
theorem review_terminal (st : St) (applicationId : String) (d : Decision) (now : ℕ)
    (pay : PaymentResult) (app : Application)
    (happ : getApplication st applicationId = some app)
    (hreviewed : app.status ≠ .pending) :
    reviewApplication st applicationId d now pay = (st, .alreadyReviewed) ∧
    (∀ pay', reviewApplication st applicationId d now pay'
      = reviewApplication st applicationId d now pay) := by
  have key : ∀ p : PaymentResult, reviewApplication st applicationId d now p
      = (st, .alreadyReviewed) := by
    intro p
    simp [reviewApplication, happ, hreviewed]
  exact ⟨key pay, fun pay' => (key pay').trans (key pay).symm⟩

/-- Witness for C3: a second review of an already-approved application. -/
def c3App : Application :=
  { id := "a1", taskId := "t1", taskTitle := "T", walletAddress := "w"
    proofType := "text", proofContent := "p", status := .approved, submittedAt := 0
    reviewedAt := some 3, paidAt := some 3, txSignature := some "sig1" }

/-- The concrete store used by the C3 witness. -/
def c3St : St := { applications := [("a1", c3App)] }

theorem review_terminal_witness :
    reviewApplication c3St "a1" .approve 9 (.ok "sig2") = (c3St, .alreadyReviewed) ∧
    (∀ pay', reviewApplication c3St "a1" .approve 9 pay'
      = reviewApplication c3St "a1" .approve 9 (.ok "sig2")) :=
  review_terminal c3St "a1" .approve 9 (.ok "sig2") c3App (by decide) (by decide)

/-! ## Claim C6: duplicate wallet rejected before verification -/

/-- C6: a registration request whose wallet is already bound to an Agent is
rejected with the wallet-taken error and leaves the store unchanged, and
the outcome does not depend on the payment-verification result at all —
even a verification that would report `valid` creates no Agent. -/
theorem register_duplicate_wallet_rejected (st : St)
    (name wallet txSignature : String) (verification : TransferVerification)
    (id apiKey : String) (now : ℕ) (agent : Agent)
    (hw : getAgentByWallet st wallet = some agent) :
    registerAgent st name wallet txSignature true verification id apiKey now
      = (st, .walletTaken) ∧
    (∀ v', registerAgent st name wallet txSignature true v' id apiKey now
      = registerAgent st name wallet txSignature true verification id apiKey now) := by
  have key : ∀ v : TransferVerification,
      registerAgent st name wallet txSignature true v id apiKey now
        = (st, .walletTaken) := by
    intro v
    unfold registerAgent
    rw [hw]
    rfl
  exact ⟨key verification, fun v' => (key v').trans (key verification).symm⟩

/-- Witness for C6: a store with one registered agent, and a registration
for the same wallet carrying a verification that would be fully valid. -/
def c6Agent : Agent :=
  { id := "g1", name := "bot", walletAddress := "w1", apiKey := "mb_k1"
    paymentTxSignature := "sig0", paymentAmount := 1, createdAt := 0
    active := true, tasksCreated := 0 }

/-- The concrete store used by the C6 witness. -/
def c6St : St :=
  { agents := [("g1", c6Agent)]
    agentByApiKey := [("mb_k1", "g1")]
    agentByWallet := [("w1", "g1")]
    allAgents := ["g1"] }

theorem register_duplicate_wallet_rejected_witness :
    registerAgent c6St "bot2" "w1" "sig9" true
        { valid := true, amount := some 1 } "g2" "mb_k2" 7
      = (c6St, .walletTaken) ∧
    (∀ v', registerAgent c6St "bot2" "w1" "sig9" true v' "g2" "mb_k2" 7
      = registerAgent c6St "bot2" "w1" "sig9" true
          { valid := true, amount := some 1 } "g2" "mb_k2" 7) :=
  register_duplicate_wallet_rejected c6St "bot2" "w1" "sig9"
    { valid := true, amount := some 1 } "g2" "mb_k2" 7 c6Agent (by decide)

/-! ## Claim C8: task create/read round trip -/

/-- C8: creating a Task and immediately reading it back by the id it was
stored under yields exactly the input's field values plus the
server-assigned fields: the given id, `createdAt` equal to the creation
time, and `totalCompletions = 0`.  The same record is also the one the
create operation returns. -/
theorem createTask_roundTrip (st : St) (input : InsertTask) (id : String) (now : ℕ) :
    getTask (createTask st input id now).1 id = some (createTask st input id now).2 ∧
    (createTask st input id now).2 =
      { id := id, title := input.title, description := input.description
        instructions := input.instructions, proofType := input.proofType
        reward := input.reward, difficulty := input.difficulty
        category := input.category, active := input.active
        totalCompletions := 0, maxCompletions := input.maxCompletions
        createdAt := now } := by
  constructor
  · unfold createTask getTask
    simp only [incStatTotalTasks]
    split <;> simp [getKey_setKey_self]
  · rfl

/-! ## Further store lemmas -/

theorem delKey_cons_self {α : Type} (q : String) (w : α) (rest : List (String × α)) :
    delKey ((q, w) :: rest) q = delKey rest q := by
  simp [delKey, List.filter_cons]

theorem delKey_cons_ne {α : Type} (q k : String) (w : α) (rest : List (String × α))
    (h : q ≠ k) : delKey ((q, w) :: rest) k = (q, w) :: delKey rest k := by
  simp [delKey, List.filter_cons, h]

theorem getKey_delKey_self {α : Type} (m : List (String × α)) (k : String) :
    getKey (delKey m k) k = none := by
  induction m with
  | nil => rfl
  | cons p rest ih =>
    obtain ⟨q, w⟩ := p
    by_cases h : q = k
    · rw [h, delKey_cons_self]
      exact ih
    · rw [delKey_cons_ne q k w rest h]
      simp only [getKey]
      rw [if_neg (fun h' => h h'.symm)]
      exact ih

theorem getKey_delKey_ne {α : Type} (m : List (String × α)) (k k' : String)
    (h : k' ≠ k) : getKey (delKey m k) k' = getKey m k' := by
  induction m with
  | nil => rfl
  | cons p rest ih =>
    obtain ⟨q, w⟩ := p
    by_cases hq : q = k
    · subst hq
      rw [delKey_cons_self]
      simp only [getKey, if_neg h]
      exact ih
    · rw [delKey_cons_ne q k w rest hq]
      simp only [getKey]
      by_cases hk : k' = q
      · simp [hk]
      · simp only [if_neg hk]
        exact ih

theorem setKey_of_getKey_none {α : Type} (m : List (String × α)) (k : String) (v : α)
    (h : getKey m k = none) : setKey m k v = m ++ [(k, v)] := by
  induction m with
  | nil => rfl
  | cons p rest ih =>
    obtain ⟨q, w⟩ := p
    simp only [getKey] at h
    by_cases hq : k = q
    · simp [hq] at h
    · rw [if_neg hq] at h
      have hqk : ¬q = k := fun h' => hq h'.symm
      simp only [setKey, if_neg hqk, List.cons_append]
      rw [ih h]

theorem mem_of_getKey {α : Type} (m : List (String × α)) (k : String) (v : α)
    (h : getKey m k = some v) : (k, v) ∈ m := by
  induction m with
  | nil => simp [getKey] at h
  | cons p rest ih =>
    obtain ⟨q, w⟩ := p
    simp only [getKey] at h
    by_cases hq : k = q
    · rw [if_pos hq] at h
      obtain rfl := Option.some_injective _ h
      simp [hq]
    · rw [if_neg hq] at h
      exact List.mem_cons_of_mem _ (ih h)

/-! ## Which operations can touch a task's reward -/

/-- The reward currently stored for a task id (`0` when the record is
missing); the quantity the payout statistics are compared against. -/
def rewardOf (tasks : List (String × Task)) (tid : String) : ℚ :=
  match getKey tasks tid with
  | none => 0
  | some t => t.reward

/-- `true` for requests that cannot touch the reward stored under `tid`:
everything except an admin task update for `tid` whose body carries a
`reward` field, and a task creation re-using the id `tid`. -/
def rewardSafe (op : Op) (tid : String) : Bool :=
  match op with
  | .updateTask i u => decide (i ≠ tid) || u.reward.isNone
  | .createTask _ _ i _ => decide (i ≠ tid)
  | _ => true

theorem tasks_incrementAgentTasksCreated (st : St) (aid : String) :
    (incrementAgentTasksCreated st aid).tasks = st.tasks := by
  unfold incrementAgentTasksCreated
  cases getAgent st aid <;> rfl

theorem tasks_createTaskRoute (st : St) (input : InsertTask) (agentId : Option String)
    (id : String) (now : ℕ) :
    (createTaskRoute st input agentId id now).1.tasks = setKey st.tasks id (createTask st input id now).2 := by
  unfold createTaskRoute
  cases agentId with
  | none =>
    unfold createTask
    simp only [incStatTotalTasks]
    split <;> rfl
  | some aid =>
    rw [tasks_incrementAgentTasksCreated]
    unfold createTask
    simp only [incStatTotalTasks]
    split <;> rfl

theorem tasks_updateApplication (st : St) (id : String) (u : ApplicationUpdate) :
    (updateApplication st id u).1.tasks = st.tasks := by
  unfold updateApplication
  cases getApplication st id with
  | none => rfl
  | some app =>
    cases u.status with
    | none => rfl
    | some s =>
      by_cases hs : s = ApplicationStatus.pending <;> simp [hs]

theorem tasks_submitApplication (st : St) (input : InsertApplication) (walletOk : Bool)
    (id : String) (now : ℕ) :
    (submitApplication st input walletOk id now).1.tasks = st.tasks := by
  unfold submitApplication
  cases walletOk with
  | false => rfl
  | true =>
    simp only [Bool.not_true]
    cases getTask st input.taskId with
    | none => rfl
    | some task =>
      by_cases ha : task.active
      · by_cases hc : capacityFull task <;>
          simp [ha, hc, createApplication, incStatTotalApplications]
      · simp [ha]

theorem tasks_registerAgent (st : St) (name wallet txSignature : String) (walletOk : Bool)
    (verification : TransferVerification) (id apiKey : String) (now : ℕ) :
    (registerAgent st name wallet txSignature walletOk verification id apiKey now).1.tasks
      = st.tasks := by
  unfold registerAgent
  cases walletOk with
  | false => rfl
  | true =>
    simp only [Bool.not_true]
    cases getAgentByWallet st wallet with
    | some a => rfl
    | none =>
      cases hv : verification.valid <;> simp [hv, createAgent, incStatTotalAgents]

theorem tasks_updateTask_of_none (st : St) (id : String) (u : TaskUpdate)
    (h : getTask st id = none) : (updateTask st id u).1.tasks = st.tasks := by
  unfold updateTask
  rw [h]

theorem tasks_updateTask_of_some (st : St) (id : String) (u : TaskUpdate) (t : Task)
    (h : getTask st id = some t) :
    (updateTask st id u).1.tasks = setKey st.tasks id (mergeTask t u) := by
  unfold updateTask
  rw [h]
  cases u.active with
  | none => rfl
  | some b => cases b <;> rfl

theorem tasks_incStatTotalPayouts (st : St) (amount : ℚ) :
    (incStatTotalPayouts st amount).tasks = st.tasks := rfl

theorem tasks_incrementTaskCompletions_of_some (st : St) (tid : String) (τ : Task)
    (h : getTask st tid = some τ) :
    (incrementTaskCompletions st tid).tasks
      = setKey st.tasks tid (mergeTask τ { totalCompletions := some (τ.totalCompletions + 1) }) := by
  unfold incrementTaskCompletions
  rw [h]
  have heq : (incStatTotalCompletedTasks
      ((updateTask st tid { totalCompletions := some (τ.totalCompletions + 1) }).1)).tasks
      = ((updateTask st tid { totalCompletions := some (τ.totalCompletions + 1) }).1).tasks := rfl
  rw [heq, tasks_updateTask_of_some st tid _ τ h]

/-- The review route either leaves the task table alone, or (successful
approval) rewrites exactly the reviewed application's task with a merge
that only bumps `totalCompletions`. -/
theorem tasks_reviewApplication (st : St) (aid : String) (d : Decision) (now : ℕ)
    (pay : PaymentResult) :
    ((reviewApplication st aid d now pay).1.tasks = st.tasks) ∨
    (∃ app τ, getApplication st aid = some app ∧ app.status = .pending ∧
      getTask st app.taskId = some τ ∧
      (reviewApplication st aid d now pay).1.tasks
        = setKey st.tasks app.taskId
            (mergeTask τ { totalCompletions := some (τ.totalCompletions + 1) })) := by
  cases happ : getApplication st aid with
  | none => exact Or.inl (by simp [reviewApplication, happ])
  | some app =>
    by_cases hp : app.status = ApplicationStatus.pending
    · cases d with
      | reject =>
        exact Or.inl (by simp [reviewApplication, happ, hp, tasks_updateApplication])
      | approve =>
        cases hτ : getTask st app.taskId with
        | none => exact Or.inl (by simp [reviewApplication, happ, hp, hτ])
        | some τ =>
          cases pay with
          | fail e => exact Or.inl (by simp [reviewApplication, happ, hp, hτ])
          | ok sig =>
            refine Or.inr ⟨app, τ, rfl, hp, hτ, ?_⟩
            simp only [reviewApplication, happ, hp]
            simp only [ne_eq, not_true_eq_false, if_false, ite_false, reduceIte]
            simp [hτ, tasks_updateApplication, tasks_incStatTotalPayouts,
              tasks_incrementTaskCompletions_of_some st app.taskId τ hτ]
    · exact Or.inl (by simp [reviewApplication, happ, hp])

/-! ## Claim C2: completion capacity -/

/-- C2 (amended, submission half): submitting an application against an
active Task whose `totalCompletions` has reached a (non-zero)
`maxCompletions` is rejected with the no-slots error and changes no
state. -/
theorem submit_at_capacity_rejected (st : St) (input : InsertApplication)
    (id : String) (now : ℕ) (task : Task) (m : ℕ)
    (htask : getTask st input.taskId = some task)
    (hactive : task.active = true)
    (hmax : task.maxCompletions = some m) (hm : m ≠ 0)
    (hfull : m ≤ task.totalCompletions) :
    submitApplication st input true id now = (st, .noSlots) := by
  have hc : capacityFull task = true := by
    simp [capacityFull, hmax, hm, decide_eq_true_eq]
    exact hfull
  simp [submitApplication, htask, hactive, hc]

/-- Witness inputs for C2: an active task already at capacity. -/
def c2Task : Task :=
  { id := "t1", title := "T", description := "d", instructions := "i"
    proofType := "text", reward := 1, difficulty := "easy", category := "c"
    active := true, totalCompletions := 1, maxCompletions := some 1, createdAt := 0 }

/-- The concrete store used by the C2 witness. -/
def c2St : St := { tasks := [("t1", c2Task)], allTasks := ["t1"], activeTasks := ["t1"] }

/-- The concrete submission body used by the C2 witness. -/
def c2Input : InsertApplication := { taskId := "t1", walletAddress := "w", proofContent := "p" }

theorem submit_at_capacity_rejected_witness :
    submitApplication c2St c2Input true "a1" 5 = (c2St, .noSlots) :=
  submit_at_capacity_rejected c2St c2Input "a1" 5 c2Task 1 (by decide) (by decide)
    (by decide) (by decide) (by decide)

/-- The task-creation body used by the C2 counterexample trace. -/
def c2xInsert : InsertTask :=
  { title := "T", description := "d", instructions := "i", proofType := "text"
    reward := 1, difficulty := "easy", category := "c", active := true
    maxCompletions := some 1 }

/-- The submission body used by the C2 counterexample trace. -/
def c2xApply : InsertApplication := { taskId := "t1", walletAddress := "w", proofContent := "p" }

/-- The C2 counterexample trace: a capacity-1 task, two submissions while
the counter is still 0, then two successful approvals. -/
def c2xOps : List Op :=
  [ .createTask c2xInsert none "t1" 0
  , .submitApplication c2xApply true "a1" 1
  , .submitApplication c2xApply true "a2" 2
  , .review "a1" .approve 3 (.ok "sig1")
  , .review "a2" .approve 4 (.ok "sig2") ]

/-- C2 counterexample: after the trace `c2xOps` (all five requests are
plain sequential public operations) the stored task has
`maxCompletions = 1` but `totalCompletions = 2`, so approval does push
`totalCompletions` above `maxCompletions` — the invariant claimed by C2
fails in a reachable state. -/
theorem completions_exceed_max_counterexample :
    (getTask (run c2xOps) "t1").map Task.maxCompletions = some (some 1) ∧
    (getTask (run c2xOps) "t1").map Task.totalCompletions = some 2 := by
  constructor <;> decide

/-! ## Claim C9: reward immutability -/

/-- C9 (amended): a stored Task's `reward` is preserved by every request
except an admin task update for that id whose raw body carries a `reward`
field, or a task creation re-using the same id: for any operation
`rewardSafe` for the id, the reward read after the step equals the reward
read before. -/
theorem reward_preserved_by_reward_safe_ops (st : St) (op : Op) (tid : String)
    (t t' : Task)
    (h1 : getTask st tid = some t)
    (h2 : getTask (step st op) tid = some t')
    (hop : rewardSafe op tid = true) :
    t'.reward = t.reward := by
  cases op with
  | createTask input agentId i now_ =>
    simp only [rewardSafe, decide_eq_true_eq] at hop
    simp only [step] at h2
    unfold getTask at h2
    rw [tasks_createTaskRoute, getKey_setKey_ne st.tasks i tid _ (fun h => hop h.symm)] at h2
    have h2' : getTask st tid = some t' := h2
    rw [h1] at h2'
    obtain rfl := Option.some_injective _ h2'
    rfl
  | updateTask i u =>
    simp only [rewardSafe, Bool.or_eq_true, decide_eq_true_eq,
      Option.isNone_iff_eq_none] at hop
    simp only [step, adminUpdateTask] at h2
    unfold getTask at h2
    by_cases hi : i = tid
    · subst hi
      have hr : u.reward = none := by
        rcases hop with h | h
        · exact absurd rfl h
        · exact h
      rw [tasks_updateTask_of_some st i u t h1, getKey_setKey_self] at h2
      obtain rfl := Option.some_injective _ h2
      simp [mergeTask, hr]
    · cases hτ : getTask st i with
      | none =>
        rw [tasks_updateTask_of_none st i u hτ] at h2
        have h2' : getTask st tid = some t' := h2
        rw [h1] at h2'
        obtain rfl := Option.some_injective _ h2'
        rfl
      | some τ =>
        rw [tasks_updateTask_of_some st i u τ hτ,
          getKey_setKey_ne st.tasks i tid _ (fun h => hi h.symm)] at h2
        have h2' : getTask st tid = some t' := h2
        rw [h1] at h2'
        obtain rfl := Option.some_injective _ h2'
        rfl
  | deleteTask i =>
    simp only [step] at h2
    unfold getTask at h2
    unfold deleteTask at h2
    cases hτ : getTask st i with
    | none =>
      simp only [hτ] at h2
      have h2' : getTask st tid = some t' := h2
      rw [h1] at h2'
      obtain rfl := Option.some_injective _ h2'
      rfl
    | some τ =>
      simp only [hτ] at h2
      have h2' : getKey (delKey st.tasks i) tid = some t' := h2
      by_cases hi : i = tid
      · subst hi
        rw [getKey_delKey_self] at h2'
        exact absurd h2' (by simp)
      · rw [getKey_delKey_ne st.tasks i tid (fun h => hi h.symm)] at h2'
        have h2'' : getTask st tid = some t' := h2'
        rw [h1] at h2''
        obtain rfl := Option.some_injective _ h2''
        rfl
  | submitApplication input walletOk i now_ =>
    simp only [step] at h2
    unfold getTask at h2
    rw [tasks_submitApplication] at h2
    have h2' : getTask st tid = some t' := h2
    rw [h1] at h2'
    obtain rfl := Option.some_injective _ h2'
    rfl
  | review aid d now_ pay =>
    simp only [step] at h2
    unfold getTask at h2
    rcases tasks_reviewApplication st aid d now_ pay with heq | ⟨app, τ, happ, hps, hτ, heq⟩
    · rw [heq] at h2
      have h2' : getTask st tid = some t' := h2
      rw [h1] at h2'
      obtain rfl := Option.some_injective _ h2'
      rfl
    · rw [heq] at h2
      by_cases hi : app.taskId = tid
      · subst hi
        rw [getKey_setKey_self] at h2
        obtain rfl := Option.some_injective _ h2
        rw [h1] at hτ
        obtain rfl := Option.some_injective _ hτ
        rfl
      · rw [getKey_setKey_ne st.tasks app.taskId tid _ (fun h => hi h.symm)] at h2
        have h2' : getTask st tid = some t' := h2
        rw [h1] at h2'
        obtain rfl := Option.some_injective _ h2'
        rfl
  | registerAgent name wallet txSignature walletOk verification i apiKey now_ =>
    simp only [step] at h2
    unfold getTask at h2
    rw [tasks_registerAgent] at h2
    have h2' : getTask st tid = some t' := h2
    rw [h1] at h2'
    obtain rfl := Option.some_injective _ h2'
    rfl

/-- The task stored by the C9 witness trace before the update. -/
def c9Task : Task :=
  { id := "t1", title := "T", description := "d", instructions := "i"
    proofType := "text", reward := 3, difficulty := "easy", category := "c"
    active := true, totalCompletions := 0, maxCompletions := none, createdAt := 0 }

/-- The concrete store used by the C9 witness. -/
def c9St : St := { tasks := [("t1", c9Task)], allTasks := ["t1"], activeTasks := ["t1"] }

/-- The stored record after the C9 witness update (only `active` flipped). -/
def c9TaskAfter : Task := { c9Task with active := false }

theorem reward_preserved_witness :
    c9TaskAfter.reward = c9Task.reward :=
  reward_preserved_by_reward_safe_ops c9St (.updateTask "t1" { active := some false })
    "t1" c9Task c9TaskAfter (by decide) (by decide) (by decide)

/-- The task-creation body used by the C9 counterexample. -/
def c9xInsert : InsertTask :=
  { title := "T", description := "d", instructions := "i", proofType := "text"
    reward := 1, difficulty := "easy", category := "c", active := true
    maxCompletions := none }

/-- The C9 counterexample trace: create a task with reward 1, then hit the
admin update route with a body containing `reward: 2`. -/
def c9xOps : List Op :=
  [ .createTask c9xInsert none "t1" 0
  , .updateTask "t1" { reward := some 2 } ]

/-- C9 counterexample: the task is created with reward 1, but after the
admin partial update (whose unvalidated body is merged onto the record)
the stored reward is 2 — the reward does change after creation. -/
theorem reward_changes_counterexample :
    (getTask (run [Op.createTask c9xInsert none "t1" 0]) "t1").map Task.reward = some 1 ∧
    (getTask (run c9xOps) "t1").map Task.reward = some 2 := by
  constructor <;> decide

/-! ## Claim C7: transfer verification -/

/-- C7: `verifyTransfer` reports `valid = true` exactly when the fetch
succeeded, the referenced transaction came back, it carries no (truthy)
on-chain error, and some native transfer matches sender, recipient and the
minimum amount in lamports (`minAmount · 10⁹`); every other case yields
`valid = false` together with a reason string.  Consequently a
registration whose payment fails `verifyRegistrationPayment` (the fixed
0.1-SOL fee to the fixed registration wallet) creates no Agent: the
handler returns the verification error and leaves the store unchanged. -/
theorem verifyTransfer_reports_valid_iff
    (fetched : Option (List HeliusTransaction)) (fromWallet toWallet : String)
    (minAmount : ℚ) :
    ((verifyTransfer fetched fromWallet toWallet minAmount).valid = true ↔
      ∃ transactions tx, fetched = some transactions ∧ transactions.head? = some tx ∧
        truthyError tx.transactionError = false ∧
        ∃ transfer ∈ tx.nativeTransfers.getD [],
          transfer.fromUserAccount = fromWallet ∧ transfer.toUserAccount = toWallet ∧
          minAmount * 1000000000 ≤ transfer.amount) ∧
    ((verifyTransfer fetched fromWallet toWallet minAmount).valid = false →
      (verifyTransfer fetched fromWallet toWallet minAmount).error.isSome = true) ∧
    (∀ st name txSignature id apiKey now,
      getAgentByWallet st fromWallet = none →
      (verifyRegistrationPayment fetched fromWallet).valid = false →
      registerAgent st name fromWallet txSignature true
          (verifyRegistrationPayment fetched fromWallet) id apiKey now
        = (st, .verificationFailed (verifyRegistrationPayment fetched fromWallet).error)) := by
  refine ⟨?_, ?_, ?_⟩
  · cases fetched with
    | none => simp [verifyTransfer]
    | some txs =>
      cases htx : txs.head? with
      | none => simp [verifyTransfer, htx]
      | some tx =>
        cases he : truthyError tx.transactionError with
        | true => simp [verifyTransfer, htx, he]
        | false =>
          cases hf : List.find? (fun transfer =>
              decide (transfer.fromUserAccount = fromWallet ∧
                transfer.toUserAccount = toWallet ∧
                minAmount * 1000000000 ≤ transfer.amount))
              (tx.nativeTransfers.getD []) with
          | none =>
            simp only [verifyTransfer, htx, he, Bool.false_eq_true, if_false, hf]
            constructor
            · intro hv
              exact absurd hv (by simp)
            · rintro ⟨transactions, tx', heq, hhd, herr, transfer, hmem, hfrom, hto, hle⟩
              obtain rfl := Option.some_injective _ heq
              rw [htx] at hhd
              obtain rfl := Option.some_injective _ hhd
              have hnone := List.find?_eq_none.mp hf transfer hmem
              simp [hfrom, hto, hle] at hnone
          | some transfer =>
            simp only [verifyTransfer, htx, he, Bool.false_eq_true, if_false, hf]
            constructor
            · intro _
              have hp := List.find?_some hf
              simp only [decide_eq_true_eq] at hp
              exact ⟨txs, tx, rfl, htx, he, transfer, List.mem_of_find?_eq_some hf,
                hp.1, hp.2.1, hp.2.2⟩
            · intro _
              trivial
  · cases fetched with
    | none => intro _; rfl
    | some txs =>
      cases htx : txs.head? with
      | none =>
        intro _
        simp only [verifyTransfer, htx]
        rfl
      | some tx =>
        cases he : truthyError tx.transactionError with
        | true =>
          intro _
          simp only [verifyTransfer, htx, he, if_true]
          rfl
        | false =>
          cases hf : List.find? (fun transfer =>
              decide (transfer.fromUserAccount = fromWallet ∧
                transfer.toUserAccount = toWallet ∧
                minAmount * 1000000000 ≤ transfer.amount))
              (tx.nativeTransfers.getD []) with
          | none =>
            intro _
            simp only [verifyTransfer, htx, he, Bool.false_eq_true, if_false, hf]
            rfl
          | some transfer =>
            intro hv
            simp only [verifyTransfer, htx, he, Bool.false_eq_true, if_false, hf] at hv
            exact absurd hv (by simp)
  · intro st name txSignature id apiKey now hwallet hinvalid
    simp [registerAgent, hwallet, hinvalid]

/-- The matching native transfer used by the C7 witness (exactly the
0.1-SOL fee, i.e. 100000000 lamports). -/
def c7Transfer : NativeTransfer :=
  { fromUserAccount := "wA", toUserAccount := REGISTRATION_WALLET, amount := 100000000 }

/-- The fetched transaction used by the C7 witness. -/
def c7Tx : HeliusTransaction :=
  { signature := "sigR", timestamp := 10, transactionError := none
    nativeTransfers := some [c7Transfer] }

theorem verifyTransfer_reports_valid_iff_witness :
    (verifyTransfer (some [c7Tx]) "wA" REGISTRATION_WALLET REGISTRATION_FEE).valid = true ∧
    (verifyTransfer none "wA" REGISTRATION_WALLET REGISTRATION_FEE).error.isSome = true := by
  constructor
  · exact (verifyTransfer_reports_valid_iff (some [c7Tx]) "wA" REGISTRATION_WALLET
      REGISTRATION_FEE).1.mpr
      ⟨[c7Tx], c7Tx, rfl, rfl, by decide,
        c7Transfer, by decide, by decide, by decide,
        by norm_num [REGISTRATION_FEE, c7Transfer]⟩
  · exact (verifyTransfer_reports_valid_iff none "wA" REGISTRATION_WALLET
      REGISTRATION_FEE).2.1 (by decide)

/-! ## Claim C10: list reads skip stale index entries -/

theorem activeProbe_eq_some (st : St) (id : String) (t : Task) :
    (match getTask st id with
     | some task => if task.active then some task else none
     | none => none) = some t ↔ getTask st id = some t ∧ t.active = true := by
  cases h : getTask st id with
  | none => simp
  | some task =>
    by_cases ha : task.active
    · simp only [if_pos ha, Option.some_inj]
      constructor
      · rintro rfl
        exact ⟨rfl, ha⟩
      · rintro ⟨heq, _⟩
        exact heq
    · constructor
      · intro hfalse
        simp [ha] at hfalse
      · rintro ⟨heq, hact⟩
        obtain rfl := Option.some_injective _ heq
        exact absurd hact ha

theorem pendingProbe_eq_some (st : St) (id : String) (a : Application) :
    (match getApplication st id with
     | some app => if app.status = ApplicationStatus.pending then some app else none
     | none => none) = some a ↔
      getApplication st id = some a ∧ a.status = ApplicationStatus.pending := by
  cases h : getApplication st id with
  | none => simp
  | some app =>
    by_cases hs : app.status = ApplicationStatus.pending
    · simp only [if_pos hs, Option.some_inj]
      constructor
      · rintro rfl
        exact ⟨rfl, hs⟩
      · rintro ⟨heq, _⟩
        exact heq
    · constructor
      · intro hfalse
        simp [hs] at hfalse
      · rintro ⟨heq, hstat⟩
        obtain rfl := Option.some_injective _ heq
        exact absurd hstat hs

/-- C10: every one of the six list reads returns exactly the entities
whose backing record exists — an id left in an index set without a record
(for example after a task deletion) is silently skipped rather than
returned as null or raising — and in addition `getActiveTasks` returns
only tasks with `active = true` and `getPendingApplications` only
applications still `pending`, even when the index sets hold stale
members. -/
theorem list_reads_return_only_live_records (st : St) :
    (∀ t, t ∈ getAllTasks st ↔ ∃ id, id ∈ st.allTasks ∧ getTask st id = some t) ∧
    (∀ t, t ∈ getActiveTasks st ↔
      ∃ id, id ∈ st.activeTasks ∧ getTask st id = some t ∧ t.active = true) ∧
    (∀ a, a ∈ getPendingApplications st ↔
      ∃ id, id ∈ st.pendingApplications ∧ getApplication st id = some a ∧
        a.status = ApplicationStatus.pending) ∧
    (∀ a, a ∈ getAllApplications st ↔
      ∃ id, id ∈ st.allApplications ∧ getApplication st id = some a) ∧
    (∀ taskId a, a ∈ getApplicationsByTask st taskId ↔
      ∃ id, id ∈ (getKey st.taskApplications taskId).getD [] ∧
        getApplication st id = some a) ∧
    (∀ g, g ∈ getAllAgents st ↔ ∃ id, id ∈ st.allAgents ∧ getAgent st id = some g) := by
  refine ⟨fun t => ?_, fun t => ?_, fun a => ?_, fun a => ?_, fun taskId a => ?_, fun g => ?_⟩
  · unfold getAllTasks
    by_cases h : st.allTasks.isEmpty
    · rw [if_pos h]
      rw [List.isEmpty_iff] at h
      simp [h]
    · rw [if_neg h, mem_sortDesc, List.mem_filterMap]
  · unfold getActiveTasks
    by_cases h : st.activeTasks.isEmpty
    · rw [if_pos h]
      rw [List.isEmpty_iff] at h
      simp [h]
    · rw [if_neg h, mem_sortDesc, List.mem_filterMap]
      constructor
      · rintro ⟨id, hid, hprobe⟩
        exact ⟨id, hid, (activeProbe_eq_some st id t).mp hprobe⟩
      · rintro ⟨id, hid, hsome, hact⟩
        exact ⟨id, hid, (activeProbe_eq_some st id t).mpr ⟨hsome, hact⟩⟩
  · unfold getPendingApplications
    by_cases h : st.pendingApplications.isEmpty
    · rw [if_pos h]
      rw [List.isEmpty_iff] at h
      simp [h]
    · rw [if_neg h, mem_sortDesc, List.mem_filterMap]
      constructor
      · rintro ⟨id, hid, hprobe⟩
        exact ⟨id, hid, (pendingProbe_eq_some st id a).mp hprobe⟩
      · rintro ⟨id, hid, hsome, hstat⟩
        exact ⟨id, hid, (pendingProbe_eq_some st id a).mpr ⟨hsome, hstat⟩⟩
  · unfold getAllApplications
    by_cases h : st.allApplications.isEmpty
    · rw [if_pos h]
      rw [List.isEmpty_iff] at h
      simp [h]
    · rw [if_neg h, mem_sortDesc, List.mem_filterMap]
  · unfold getApplicationsByTask
    by_cases h : ((getKey st.taskApplications taskId).getD []).isEmpty
    · rw [if_pos h]
      rw [List.isEmpty_iff] at h
      simp [h]
    · rw [if_neg h, mem_sortDesc, List.mem_filterMap]
  · unfold getAllAgents
    by_cases h : st.allAgents.isEmpty
    · rw [if_pos h]
      rw [List.isEmpty_iff] at h
      simp [h]
    · rw [if_neg h, mem_sortDesc, List.mem_filterMap]

/-! ## How each request touches the application table -/

theorem apps_createTaskRoute (st : St) (input : InsertTask) (agentId : Option String)
    (id : String) (now : ℕ) :
    (createTaskRoute st input agentId id now).1.applications = st.applications := by
  unfold createTaskRoute
  cases agentId with
  | none =>
    unfold createTask
    simp only [incStatTotalTasks]
    split <;> rfl
  | some aid =>
    have h1 : ∀ s : St, (incrementAgentTasksCreated s aid).applications = s.applications := by
      intro s
      unfold incrementAgentTasksCreated
      cases getAgent s aid <;> rfl
    rw [h1]
    unfold createTask
    simp only [incStatTotalTasks]
    split <;> rfl

theorem apps_updateTask (st : St) (id : String) (u : TaskUpdate) :
    (updateTask st id u).1.applications = st.applications := by
  unfold updateTask
  cases getTask st id with
  | none => rfl
  | some t =>
    cases u.active with
    | none => rfl
    | some b => cases b <;> rfl

theorem apps_deleteTask (st : St) (id : String) :
    (deleteTask st id).1.applications = st.applications := by
  unfold deleteTask
  cases getTask st id <;> rfl

theorem apps_registerAgent (st : St) (name wallet txSignature : String) (walletOk : Bool)
    (verification : TransferVerification) (id apiKey : String) (now : ℕ) :
    (registerAgent st name wallet txSignature walletOk verification id apiKey now).1.applications
      = st.applications := by
  unfold registerAgent
  cases walletOk with
  | false => rfl
  | true =>
    simp only [Bool.not_true]
    cases getAgentByWallet st wallet with
    | some a => rfl
    | none =>
      cases hv : verification.valid <;> simp [hv, createAgent, incStatTotalAgents]

theorem apps_incrementTaskCompletions (st : St) (tid : String) :
    (incrementTaskCompletions st tid).applications = st.applications := by
  unfold incrementTaskCompletions
  cases getTask st tid with
  | none => rfl
  | some t =>
    have heq : ∀ s : St, (incStatTotalCompletedTasks s).applications = s.applications :=
      fun s => rfl
    rw [heq, apps_updateTask]

theorem apps_updateApplication_of_some (st : St) (id : String) (u : ApplicationUpdate)
    (app : Application) (h : getApplication st id = some app) :
    (updateApplication st id u).1.applications
      = setKey st.applications id (mergeApplication app u) := by
  cases hu : u.status with
  | none => simp [updateApplication, h, hu]
  | some s =>
    by_cases hs : s = ApplicationStatus.pending <;> simp [updateApplication, h, hu, hs]

/-- The submission route either leaves the application table alone (one of
the guards fired) or stores exactly one fresh `pending` record denormalized
from the task. -/
theorem apps_submitApplication_cases (st : St) (input : InsertApplication)
    (walletOk : Bool) (id : String) (now : ℕ) :
    ((submitApplication st input walletOk id now).1.applications = st.applications) ∨
    (∃ task, getTask st input.taskId = some task ∧
      (submitApplication st input walletOk id now).1.applications
        = setKey st.applications id
            { id := id, taskId := input.taskId, taskTitle := task.title
              walletAddress := input.walletAddress, proofType := task.proofType
              proofContent := input.proofContent, status := .pending
              submittedAt := now }) := by
  cases walletOk with
  | false => exact Or.inl (by simp [submitApplication])
  | true =>
    cases ht : getTask st input.taskId with
    | none => exact Or.inl (by simp [submitApplication, ht])
    | some task =>
      by_cases ha : task.active
      · by_cases hc : capacityFull task
        · exact Or.inl (by simp [submitApplication, ht, ha, hc])
        · refine Or.inr ⟨task, rfl, ?_⟩
          simp [submitApplication, ht, ha, hc, createApplication, incStatTotalApplications]
      · exact Or.inl (by simp [submitApplication, ht, ha])

/-- The review route either leaves the application table alone, or merges a
rejection update, or (successful approval) merges an approval update
carrying the payment signature and timestamps. -/
theorem apps_reviewApplication_cases (st : St) (aid : String) (d : Decision) (now : ℕ)
    (pay : PaymentResult) :
    ((reviewApplication st aid d now pay).1.applications = st.applications) ∨
    (∃ app u, getApplication st aid = some app ∧ app.status = .pending ∧
      ((u = { status := some .rejected, reviewedAt := some now } ∧ d = .reject) ∨
       (∃ sig, pay = .ok sig ∧ d = .approve ∧
         (getTask st app.taskId).isSome = true ∧
         u = { status := some .approved, reviewedAt := some now
               paidAt := some now, txSignature := some sig })) ∧
      (reviewApplication st aid d now pay).1.applications
        = setKey st.applications aid (mergeApplication app u)) := by
  cases happ : getApplication st aid with
  | none => exact Or.inl (by simp [reviewApplication, happ])
  | some app =>
    by_cases hp : app.status = ApplicationStatus.pending
    · cases d with
      | reject =>
        refine Or.inr ⟨app, _, rfl, hp, Or.inl ⟨rfl, rfl⟩, ?_⟩
        simp only [reviewApplication, happ, hp]
        simp only [ne_eq, not_true_eq_false, if_false, ite_false, reduceIte]
        rw [apps_updateApplication_of_some st aid _ app happ]
      | approve =>
        cases hτ : getTask st app.taskId with
        | none => exact Or.inl (by simp [reviewApplication, happ, hp, hτ])
        | some τ =>
          cases pay with
          | fail e => exact Or.inl (by simp [reviewApplication, happ, hp, hτ])
          | ok sig =>
            refine Or.inr ⟨app, _, rfl, hp,
              Or.inr ⟨sig, rfl, rfl, by rw [hτ]; rfl, rfl⟩, ?_⟩
            simp only [reviewApplication, happ, hp]
            simp only [ne_eq, not_true_eq_false, if_false, ite_false, reduceIte]
            simp only [hτ]
            have happ2 : getApplication
                (incStatTotalPayouts (incrementTaskCompletions st app.taskId) τ.reward)
                aid = some app := by
              have hpr : (incStatTotalPayouts (incrementTaskCompletions st app.taskId)
                  τ.reward).applications
                  = (incrementTaskCompletions st app.taskId).applications := rfl
              unfold getApplication
              rw [hpr, apps_incrementTaskCompletions]
              exact happ
            rw [apps_updateApplication_of_some _ aid _ app happ2]
            have hpr : (incStatTotalPayouts (incrementTaskCompletions st app.taskId)
                τ.reward).applications
                = (incrementTaskCompletions st app.taskId).applications := rfl
            rw [hpr, apps_incrementTaskCompletions]
    · exact Or.inl (by simp [reviewApplication, happ, hp])

/-! ## Claim C5: payment fields track the approved status -/

/-- The per-record invariant behind C5: the payment signature and the paid
timestamp are present exactly on approved applications, and any reviewed
(non-pending) application carries a review timestamp. -/
def Inv5L (apps : List (String × Application)) : Prop :=
  ∀ p ∈ apps,
    (p.2.txSignature.isSome = true ↔ p.2.status = ApplicationStatus.approved) ∧
    (p.2.paidAt.isSome = true ↔ p.2.status = ApplicationStatus.approved) ∧
    (p.2.status ≠ ApplicationStatus.pending → p.2.reviewedAt.isSome = true)

theorem inv5L_setKey (apps : List (String × Application)) (k : String) (v : Application)
    (h : Inv5L apps)
    (hv : (v.txSignature.isSome = true ↔ v.status = ApplicationStatus.approved) ∧
      (v.paidAt.isSome = true ↔ v.status = ApplicationStatus.approved) ∧
      (v.status ≠ ApplicationStatus.pending → v.reviewedAt.isSome = true)) :
    Inv5L (setKey apps k v) := by
  intro q hq
  rcases mem_setKey hq with rfl | hq'
  · exact hv
  · exact h q hq'

theorem inv5_step (st : St) (op : Op) (h : Inv5L st.applications) :
    Inv5L (step st op).applications := by
  cases op with
  | createTask input agentId id now_ =>
    simp only [step]
    rw [apps_createTaskRoute]
    exact h
  | updateTask id u =>
    simp only [step, adminUpdateTask]
    rw [apps_updateTask]
    exact h
  | deleteTask id =>
    simp only [step]
    rw [apps_deleteTask]
    exact h
  | registerAgent name wallet txSignature walletOk verification id apiKey now_ =>
    simp only [step]
    rw [apps_registerAgent]
    exact h
  | submitApplication input walletOk id now_ =>
    simp only [step]
    rcases apps_submitApplication_cases st input walletOk id now_ with heq | ⟨task, _, heq⟩
    · rw [heq]; exact h
    · rw [heq]
      exact inv5L_setKey _ _ _ h (by simp)
  | review aid d now_ pay =>
    simp only [step]
    rcases apps_reviewApplication_cases st aid d now_ pay with
      heq | ⟨app, u, happ, hp, hu, heq⟩
    · rw [heq]; exact h
    · rw [heq]
      have hmem := h (aid, app) (mem_of_getKey _ _ _ happ)
      obtain ⟨h1, h2, _⟩ := hmem
      rw [hp] at h1 h2
      have htx : app.txSignature = none := by
        rcases hsig : app.txSignature with _ | s
        · rfl
        · exact absurd (h1.mp (by rw [hsig]; rfl)) (by simp)
      have hpd : app.paidAt = none := by
        rcases hpa : app.paidAt with _ | x
        · rfl
        · exact absurd (h2.mp (by rw [hpa]; rfl)) (by simp)
      rcases hu with ⟨rfl, _⟩ | ⟨sig, _, _, _, rfl⟩
      · exact inv5L_setKey _ _ _ h (by simp [mergeApplication, Option.or, htx, hpd])
      · exact inv5L_setKey _ _ _ h (by simp [mergeApplication, Option.or])

theorem inv5_run_aux (ops : List Op) :
    ∀ st : St, Inv5L st.applications → Inv5L (ops.foldl step st).applications := by
  induction ops with
  | nil => intro st h; exact h
  | cons op rest ih =>
    intro st h
    exact ih (step st op) (inv5_step st op h)

/-- C5: in every reachable state, an Application's `txSignature` and
`paidAt` are both set iff its status is `approved`; a pending application
has neither, a rejected application has a `reviewedAt` but neither payment
field, and an approved application has both. -/
theorem payment_fields_iff_approved (ops : List Op) (id : String) (app : Application)
    (happ : getApplication (run ops) id = some app) :
    ((app.txSignature.isSome = true ∧ app.paidAt.isSome = true) ↔
      app.status = ApplicationStatus.approved) ∧
    (app.status = ApplicationStatus.pending →
      app.txSignature = none ∧ app.paidAt = none) ∧
    (app.status = ApplicationStatus.rejected →
      app.reviewedAt.isSome = true ∧ app.txSignature = none ∧ app.paidAt = none) ∧
    (app.status = ApplicationStatus.approved →
      app.txSignature.isSome = true ∧ app.paidAt.isSome = true) := by
  have hinv : Inv5L (run ops).applications :=
    inv5_run_aux ops St0 (by intro p hp; simp [St0] at hp)
  obtain ⟨h1x, h2x, h3x⟩ := hinv (id, app) (mem_of_getKey _ _ _ happ)
  have h1 : app.txSignature.isSome = true ↔ app.status = ApplicationStatus.approved := h1x
  have h2 : app.paidAt.isSome = true ↔ app.status = ApplicationStatus.approved := h2x
  have h3 : app.status ≠ ApplicationStatus.pending → app.reviewedAt.isSome = true := h3x
  have hnone : ∀ {α : Type} (x : Option α), x.isSome ≠ true → x = none := by
    intro α x hx
    cases x with
    | none => rfl
    | some v => simp at hx
  refine ⟨⟨fun hx => h1.mp hx.1, fun hx => ⟨h1.mpr hx, h2.mpr hx⟩⟩, ?_, ?_, ?_⟩
  · intro hs
    constructor
    · refine hnone _ (fun hx => ?_)
      rw [h1.mp hx] at hs
      exact absurd hs (by decide)
    · refine hnone _ (fun hx => ?_)
      rw [h2.mp hx] at hs
      exact absurd hs (by decide)
  · intro hs
    refine ⟨h3 (by rw [hs]; decide), ?_, ?_⟩
    · refine hnone _ (fun hx => ?_)
      rw [h1.mp hx] at hs
      exact absurd hs (by decide)
    · refine hnone _ (fun hx => ?_)
      rw [h2.mp hx] at hs
      exact absurd hs (by decide)
  · intro hs
    exact ⟨h1.mpr hs, h2.mpr hs⟩

/-- The task-creation body used by the C5 witness trace. -/
def c5Insert : InsertTask :=
  { title := "T", description := "d", instructions := "i", proofType := "text"
    reward := 1, difficulty := "easy", category := "c", active := true
    maxCompletions := none }

/-- The submission body used by the C5 witness trace. -/
def c5Apply : InsertApplication := { taskId := "t1", walletAddress := "w", proofContent := "p" }

/-- The C5 witness trace: one task, one pending submission. -/
def c5Ops : List Op :=
  [ .createTask c5Insert none "t1" 0
  , .submitApplication c5Apply true "a1" 1 ]

/-- The stored record the C5 witness reads back. -/
def c5App : Application :=
  { id := "a1", taskId := "t1", taskTitle := "T", walletAddress := "w"
    proofType := "text", proofContent := "p", status := .pending, submittedAt := 1 }

theorem payment_fields_iff_approved_witness :
    ((c5App.txSignature.isSome = true ∧ c5App.paidAt.isSome = true) ↔
      c5App.status = ApplicationStatus.approved) ∧
    (c5App.status = ApplicationStatus.pending →
      c5App.txSignature = none ∧ c5App.paidAt = none) ∧
    (c5App.status = ApplicationStatus.rejected →
      c5App.reviewedAt.isSome = true ∧ c5App.txSignature = none ∧ c5App.paidAt = none) ∧
    (c5App.status = ApplicationStatus.approved →
      c5App.txSignature.isSome = true ∧ c5App.paidAt.isSome = true) :=
  payment_fields_iff_approved c5Ops "a1" c5App (by decide)

/-! ## Claim C4: the stats counters track approvals -/

/-- Number of approved applications stored. -/
def approvedCount (apps : List (String × Application)) : ℕ :=
  (apps.filter (fun p => p.2.status = ApplicationStatus.approved)).length

/-- Sum, over the approved applications, of the reward currently stored on
each application's task. -/
def payoutSum (tasks : List (String × Task)) (apps : List (String × Application)) : ℚ :=
  ((apps.filter (fun p => p.2.status = ApplicationStatus.approved)).map
    (fun p => rewardOf tasks p.2.taskId)).sum

/-- Side conditions under which the C4 stats invariant is preserved: fresh
server-generated ids for creations, no admin task update carrying a
`reward` field, and no task deletion. -/
def opOk (st : St) : Op → Bool
  | .createTask _ _ id _ => (getKey st.tasks id).isNone
  | .submitApplication _ _ id _ => (getKey st.applications id).isNone
  | .updateTask _ u => u.reward.isNone
  | .deleteTask _ => false
  | _ => true

/-- `opOk` holds along a whole execution. -/
def opsOk : St → List Op → Bool
  | _, [] => true
  | st, op :: rest => opOk st op && opsOk (step st op) rest

/-- The inductive invariant behind C4. -/
structure Inv4 (st : St) : Prop where
  appTask : ∀ p ∈ st.applications, p.2.status = ApplicationStatus.approved →
    (getKey st.tasks p.2.taskId).isSome = true
  countEq : st.stats.totalCompletedTasks = approvedCount st.applications
  sumEq : st.stats.totalPayouts = payoutSum st.tasks st.applications

theorem getKey_cons_self {α : Type} (a : String) (b : α) (rest : List (String × α)) :
    getKey ((a, b) :: rest) a = some b := by
  simp [getKey]

theorem getKey_cons_ne {α : Type} (a k : String) (b : α) (rest : List (String × α))
    (h : k ≠ a) : getKey ((a, b) :: rest) k = getKey rest k := by
  simp [getKey, h]

theorem setKey_cons_self {α : Type} (a : String) (b v : α) (rest : List (String × α)) :
    setKey ((a, b) :: rest) a v = (a, v) :: rest := by
  simp [setKey]

theorem setKey_cons_ne {α : Type} (a k : String) (b v : α) (rest : List (String × α))
    (h : a ≠ k) : setKey ((a, b) :: rest) k v = (a, b) :: setKey rest k v := by
  simp [setKey, h]

theorem filter_setKey_of_both_false {α : Type} (p : String × α → Bool)
    (l : List (String × α)) (k : String) (v old : α)
    (hget : getKey l k = some old) (hold : p (k, old) = false) (hv : p (k, v) = false) :
    (setKey l k v).filter p = l.filter p := by
  induction l with
  | nil => simp [getKey] at hget
  | cons q rest ih =>
    obtain ⟨a, b⟩ := q
    by_cases hak : a = k
    · subst hak
      rw [getKey_cons_self] at hget
      obtain rfl := Option.some_injective _ hget
      rw [setKey_cons_self, List.filter_cons, List.filter_cons, hv, hold]
      simp
    · rw [getKey_cons_ne a k b rest (fun h => hak h.symm)] at hget
      rw [setKey_cons_ne a k b v rest hak]
      rw [List.filter_cons, List.filter_cons]
      by_cases hpb : p (a, b) = true
      · rw [hpb, if_pos rfl, if_pos rfl, ih hget]
      · rw [eq_false_of_ne_true hpb]
        simp only [Bool.false_eq_true, if_false]
        exact ih hget

theorem filter_setKey_perm_cons {α : Type} (p : String × α → Bool)
    (l : List (String × α)) (k : String) (v old : α)
    (hget : getKey l k = some old) (hold : p (k, old) = false) (hv : p (k, v) = true) :
    List.Perm ((setKey l k v).filter p) ((k, v) :: l.filter p) := by
  induction l with
  | nil => simp [getKey] at hget
  | cons q rest ih =>
    obtain ⟨a, b⟩ := q
    by_cases hak : a = k
    · subst hak
      rw [getKey_cons_self] at hget
      obtain rfl := Option.some_injective _ hget
      rw [setKey_cons_self, List.filter_cons, List.filter_cons, hv, hold]
      simp
    · rw [getKey_cons_ne a k b rest (fun h => hak h.symm)] at hget
      rw [setKey_cons_ne a k b v rest hak]
      rw [List.filter_cons, List.filter_cons]
      by_cases hpb : p (a, b) = true
      · rw [hpb]
        simp only [if_pos rfl]
        have hstep := (ih hget).cons (a, b)
        have hswap : List.Perm ((a, b) :: (k, v) :: rest.filter p)
            ((k, v) :: (a, b) :: rest.filter p) := List.Perm.swap _ _ _
        exact hstep.trans hswap
      · rw [eq_false_of_ne_true hpb]
        simp only [Bool.false_eq_true, if_false]
        exact ih hget

theorem filter_setKey_fresh {α : Type} (p : String × α → Bool)
    (l : List (String × α)) (k : String) (v : α)
    (hget : getKey l k = none) (hv : p (k, v) = false) :
    (setKey l k v).filter p = l.filter p := by
  rw [setKey_of_getKey_none l k v hget, List.filter_append]
  have : [(k, v)].filter p = [] := by
    rw [List.filter_cons, hv]
    simp
  rw [this, List.append_nil]

theorem rewardOf_setKey_ne (tasks : List (String × Task)) (k x : String) (v : Task)
    (h : x ≠ k) : rewardOf (setKey tasks k v) x = rewardOf tasks x := by
  unfold rewardOf
  rw [getKey_setKey_ne _ _ _ _ h]

theorem rewardOf_setKey_same (tasks : List (String × Task)) (k : String) (τ t' : Task)
    (hget : getKey tasks k = some τ) (hr : t'.reward = τ.reward) :
    ∀ x, rewardOf (setKey tasks k t') x = rewardOf tasks x := by
  intro x
  by_cases hx : x = k
  · subst hx
    simp [rewardOf, getKey_setKey_self, hget, hr]
  · exact rewardOf_setKey_ne tasks k x t' hx

theorem payoutSum_congr (tasks tasks' : List (String × Task))
    (apps : List (String × Application))
    (h : ∀ x, rewardOf tasks' x = rewardOf tasks x) :
    payoutSum tasks' apps = payoutSum tasks apps := by
  unfold payoutSum
  congr 1
  exact List.map_congr_left (fun p _ => h p.2.taskId)

theorem payoutSum_setKey_fresh (tasks : List (String × Task))
    (apps : List (String × Application)) (k : String) (v : Task)
    (hfresh : getKey tasks k = none)
    (happ : ∀ p ∈ apps, p.2.status = ApplicationStatus.approved →
      (getKey tasks p.2.taskId).isSome = true) :
    payoutSum (setKey tasks k v) apps = payoutSum tasks apps := by
  unfold payoutSum
  congr 1
  refine List.map_congr_left (fun p hp => ?_)
  have hp' := List.mem_filter.mp hp
  have happr : p.2.status = ApplicationStatus.approved := by
    have := hp'.2
    simpa using this
  have hsome := happ p hp'.1 happr
  have hne : p.2.taskId ≠ k := by
    intro he
    rw [he, hfresh] at hsome
    simp at hsome
  exact rewardOf_setKey_ne tasks k p.2.taskId v hne

/-! Stats projections of the operations. -/

theorem stats_updateTask (st : St) (id : String) (u : TaskUpdate) :
    (updateTask st id u).1.stats = st.stats := by
  unfold updateTask
  cases getTask st id with
  | none => rfl
  | some t =>
    cases u.active with
    | none => rfl
    | some b => cases b <;> rfl

theorem stats_updateApplication (st : St) (id : String) (u : ApplicationUpdate) :
    (updateApplication st id u).1.stats = st.stats := by
  unfold updateApplication
  cases getApplication st id with
  | none => rfl
  | some app =>
    cases u.status with
    | none => rfl
    | some s => by_cases hs : s = ApplicationStatus.pending <;> simp [hs]

theorem statsCP_createTaskRoute (st : St) (input : InsertTask) (agentId : Option String)
    (id : String) (now : ℕ) :
    (createTaskRoute st input agentId id now).1.stats.totalCompletedTasks
      = st.stats.totalCompletedTasks ∧
    (createTaskRoute st input agentId id now).1.stats.totalPayouts
      = st.stats.totalPayouts := by
  unfold createTaskRoute
  cases agentId with
  | none =>
    unfold createTask
    simp only [incStatTotalTasks]
    split <;> exact ⟨rfl, rfl⟩
  | some aid =>
    have h1 : ∀ s : St, (incrementAgentTasksCreated s aid).stats = s.stats := by
      intro s
      unfold incrementAgentTasksCreated
      cases getAgent s aid <;> rfl
    rw [h1]
    unfold createTask
    simp only [incStatTotalTasks]
    split <;> exact ⟨rfl, rfl⟩

theorem statsCP_registerAgent (st : St) (name wallet txSignature : String)
    (walletOk : Bool) (verification : TransferVerification) (id apiKey : String)
    (now : ℕ) :
    (registerAgent st name wallet txSignature walletOk verification id apiKey now).1.stats.totalCompletedTasks
      = st.stats.totalCompletedTasks ∧
    (registerAgent st name wallet txSignature walletOk verification id apiKey now).1.stats.totalPayouts
      = st.stats.totalPayouts := by
  unfold registerAgent
  cases walletOk with
  | false => exact ⟨rfl, rfl⟩
  | true =>
    simp only [Bool.not_true]
    cases getAgentByWallet st wallet with
    | some a => exact ⟨rfl, rfl⟩
    | none =>
      cases hv : verification.valid <;> simp [hv, createAgent, incStatTotalAgents]

theorem statsCP_incrementTaskCompletions_of_some (st : St) (tid : String) (τ : Task)
    (h : getTask st tid = some τ) :
    (incrementTaskCompletions st tid).stats.totalCompletedTasks
      = st.stats.totalCompletedTasks + 1 ∧
    (incrementTaskCompletions st tid).stats.totalPayouts = st.stats.totalPayouts := by
  unfold incrementTaskCompletions
  rw [h]
  have h1 := stats_updateTask st tid { totalCompletions := some (τ.totalCompletions + 1) }
  constructor
  · show (updateTask st tid { totalCompletions := some (τ.totalCompletions + 1) }).1.stats.totalCompletedTasks + 1
      = st.stats.totalCompletedTasks + 1
    rw [h1]
  · show (updateTask st tid { totalCompletions := some (τ.totalCompletions + 1) }).1.stats.totalPayouts
      = st.stats.totalPayouts
    rw [h1]

/-- Transport `Inv4` across a step whose relevant projections are
unchanged. -/
theorem inv4_of_projections (st st' : St) (h : Inv4 st)
    (hA : st'.applications = st.applications)
    (hT : st'.tasks = st.tasks)
    (hCT : st'.stats.totalCompletedTasks = st.stats.totalCompletedTasks)
    (hTP : st'.stats.totalPayouts = st.stats.totalPayouts) : Inv4 st' := by
  constructor
  · intro p hp hap
    rw [hT]
    exact h.appTask p (hA ▸ hp) hap
  · rw [hCT, hA]
    exact h.countEq
  · rw [hTP, hA, hT]
    exact h.sumEq

/-- The submission route either returns the state unchanged or runs
`createApplication` on the fetched task's denormalized fields. -/
theorem submitApplication_unchanged_or_creates (st : St) (input : InsertApplication)
    (walletOk : Bool) (id : String) (now : ℕ) :
    ((submitApplication st input walletOk id now).1 = st) ∨
    (∃ task, getTask st input.taskId = some task ∧
      (submitApplication st input walletOk id now).1
        = (createApplication st input task.title task.proofType id now).1) := by
  cases walletOk with
  | false => exact Or.inl (by simp [submitApplication])
  | true =>
    cases ht : getTask st input.taskId with
    | none => exact Or.inl (by simp [submitApplication, ht])
    | some task =>
      by_cases ha : task.active
      · by_cases hc : capacityFull task
        · exact Or.inl (by simp [submitApplication, ht, ha, hc])
        · refine Or.inr ⟨task, rfl, ?_⟩
          simp [submitApplication, ht, ha, hc]
      · exact Or.inl (by simp [submitApplication, ht, ha])

/-- The review route either returns the state unchanged, or commits a
rejection merge, or (successful approval) commits the completion
increment, the payout stat bump and the approval merge. -/
theorem reviewApplication_state_cases (st : St) (aid : String) (d : Decision)
    (now : ℕ) (pay : PaymentResult) :
    ((reviewApplication st aid d now pay).1 = st) ∨
    (∃ app, getApplication st aid = some app ∧ app.status = ApplicationStatus.pending ∧
      ((d = .reject ∧ (reviewApplication st aid d now pay).1
          = (updateApplication st aid
              { status := some .rejected, reviewedAt := some now }).1) ∨
       (∃ sig τ, d = .approve ∧ pay = .ok sig ∧ getTask st app.taskId = some τ ∧
         (reviewApplication st aid d now pay).1
           = (updateApplication
               (incStatTotalPayouts (incrementTaskCompletions st app.taskId) τ.reward)
               aid
               { status := some .approved, reviewedAt := some now
                 paidAt := some now, txSignature := some sig }).1))) := by
  cases happ : getApplication st aid with
  | none => exact Or.inl (by simp [reviewApplication, happ])
  | some app =>
    by_cases hp : app.status = ApplicationStatus.pending
    · cases d with
      | reject =>
        refine Or.inr ⟨app, rfl, hp, Or.inl ⟨rfl, ?_⟩⟩
        simp only [reviewApplication, happ, hp]
        simp only [ne_eq, not_true_eq_false, if_false, ite_false, reduceIte]
      | approve =>
        cases hτ : getTask st app.taskId with
        | none => exact Or.inl (by simp [reviewApplication, happ, hp, hτ])
        | some τ =>
          cases pay with
          | fail e => exact Or.inl (by simp [reviewApplication, happ, hp, hτ])
          | ok sig =>
            refine Or.inr ⟨app, rfl, hp, Or.inr ⟨sig, τ, rfl, rfl, hτ, ?_⟩⟩
            simp only [reviewApplication, happ, hp]
            simp only [ne_eq, not_true_eq_false, if_false, ite_false, reduceIte]
            simp only [hτ]
    · exact Or.inl (by simp [reviewApplication, happ, hp])

theorem approvedCount_setKey_approve (apps : List (String × Application)) (aid : String)
    (app mA : Application) (hget : getKey apps aid = some app)
    (hps : app.status = ApplicationStatus.pending)
    (hmA : mA.status = ApplicationStatus.approved) :
    approvedCount (setKey apps aid mA) = approvedCount apps + 1 := by
  unfold approvedCount
  have hperm := filter_setKey_perm_cons
    (fun p : String × Application => decide (p.2.status = ApplicationStatus.approved))
    apps aid mA app hget (by simp [hps]) (by simp [hmA])
  rw [hperm.length_eq, List.length_cons]

theorem payoutSum_setKey_approve (tasks : List (String × Task))
    (apps : List (String × Application)) (aid : String) (app mA : Application)
    (hget : getKey apps aid = some app)
    (hps : app.status = ApplicationStatus.pending)
    (hmA : mA.status = ApplicationStatus.approved) :
    payoutSum tasks (setKey apps aid mA)
      = rewardOf tasks mA.taskId + payoutSum tasks apps := by
  unfold payoutSum
  have hperm := filter_setKey_perm_cons
    (fun p : String × Application => decide (p.2.status = ApplicationStatus.approved))
    apps aid mA app hget (by simp [hps]) (by simp [hmA])
  rw [(hperm.map (fun p : String × Application => rewardOf tasks p.2.taskId)).sum_eq,
    List.map_cons, List.sum_cons]

theorem inv4_step (st : St) (op : Op) (h : Inv4 st) (hop : opOk st op = true) :
    Inv4 (step st op) := by
  cases op with
  | createTask input agentId i now_ =>
    simp only [opOk, Option.isNone_iff_eq_none] at hop
    simp only [step]
    have hA := apps_createTaskRoute st input agentId i now_
    have hT := tasks_createTaskRoute st input agentId i now_
    obtain ⟨hCT, hTP⟩ := statsCP_createTaskRoute st input agentId i now_
    constructor
    · intro p hp hap
      rw [hT]
      have hs := h.appTask p (hA ▸ hp) hap
      by_cases hx : p.2.taskId = i
      · rw [hx, getKey_setKey_self]
        rfl
      · rw [getKey_setKey_ne _ _ _ _ hx]
        exact hs
    · rw [hCT, hA]
      exact h.countEq
    · rw [hTP, hA, hT]
      rw [payoutSum_setKey_fresh st.tasks st.applications i _ hop h.appTask]
      exact h.sumEq
  | updateTask i u =>
    simp only [opOk, Option.isNone_iff_eq_none] at hop
    simp only [step, adminUpdateTask]
    cases hτ : getTask st i with
    | none =>
      have hst : (updateTask st i u).1 = st := by
        unfold updateTask
        rw [hτ]
      rw [hst]
      exact h
    | some τ =>
      have hT := tasks_updateTask_of_some st i u τ hτ
      have hA := apps_updateTask st i u
      have hS := stats_updateTask st i u
      have hrw : (mergeTask τ u).reward = τ.reward := by
        simp [mergeTask, hop]
      constructor
      · intro p hp hap
        rw [hT]
        have hs := h.appTask p (hA ▸ hp) hap
        by_cases hx : p.2.taskId = i
        · rw [hx, getKey_setKey_self]
          rfl
        · rw [getKey_setKey_ne _ _ _ _ hx]
          exact hs
      · rw [hA, show (updateTask st i u).1.stats.totalCompletedTasks
            = st.stats.totalCompletedTasks from by rw [hS]]
        exact h.countEq
      · rw [hA, hT, show (updateTask st i u).1.stats.totalPayouts
            = st.stats.totalPayouts from by rw [hS]]
        rw [payoutSum_congr st.tasks _ st.applications
          (rewardOf_setKey_same st.tasks i τ (mergeTask τ u) hτ hrw)]
        exact h.sumEq
  | deleteTask i =>
    simp [opOk] at hop
  | submitApplication input walletOk i now_ =>
    simp only [opOk, Option.isNone_iff_eq_none] at hop
    simp only [step]
    rcases submitApplication_unchanged_or_creates st input walletOk i now_ with
      heq | ⟨task, ht, heq⟩
    · rw [heq]
      exact h
    · rw [heq]
      have hA : (createApplication st input task.title task.proofType i now_).1.applications
          = setKey st.applications i
              { id := i, taskId := input.taskId, taskTitle := task.title
                walletAddress := input.walletAddress, proofType := task.proofType
                proofContent := input.proofContent, status := .pending
                submittedAt := now_ } := rfl
      have hT : (createApplication st input task.title task.proofType i now_).1.tasks
          = st.tasks := rfl
      have hCT : (createApplication st input task.title task.proofType i now_).1.stats.totalCompletedTasks
          = st.stats.totalCompletedTasks := rfl
      have hTP : (createApplication st input task.title task.proofType i now_).1.stats.totalPayouts
          = st.stats.totalPayouts := rfl
      constructor
      · intro p hp hap
        rw [hT]
        rw [hA] at hp
        rcases mem_setKey hp with rfl | hp'
        · simp at hap
        · exact h.appTask p hp' hap
      · rw [hCT, hA]
        unfold approvedCount
        rw [filter_setKey_fresh _ _ _ _ hop (by simp)]
        exact h.countEq
      · rw [hTP, hA, hT]
        unfold payoutSum
        rw [filter_setKey_fresh _ _ _ _ hop (by simp)]
        exact h.sumEq
  | review aid d now_ pay =>
    simp only [step]
    rcases reviewApplication_state_cases st aid d now_ pay with
      heq | ⟨app, happ, hps, hcase⟩
    · rw [heq]
      exact h
    · have hgetA : getKey st.applications aid = some app := happ
      have hold : (fun p : String × Application =>
          decide (p.2.status = ApplicationStatus.approved)) (aid, app) = false := by
        simp [hps]
      rcases hcase with ⟨_, heq⟩ | ⟨sig, τ, _, _, hτ, heq⟩
      · rw [heq]
        have hA := apps_updateApplication_of_some st aid
          { status := some .rejected, reviewedAt := some now_ } app happ
        have hT := tasks_updateApplication st aid
          { status := some .rejected, reviewedAt := some now_ }
        have hS := stats_updateApplication st aid
          { status := some .rejected, reviewedAt := some now_ }
        have hvnew : (fun p : String × Application =>
            decide (p.2.status = ApplicationStatus.approved))
            (aid, mergeApplication app
              { status := some .rejected, reviewedAt := some now_ }) = false := by
          simp [mergeApplication]
        constructor
        · intro p hp hap
          rw [hT]
          rw [hA] at hp
          rcases mem_setKey hp with rfl | hp'
          · exact absurd hap (by simp [mergeApplication])
          · exact h.appTask p hp' hap
        · rw [hA, show (updateApplication st aid
              { status := some .rejected, reviewedAt := some now_ }).1.stats.totalCompletedTasks
              = st.stats.totalCompletedTasks from by rw [hS]]
          unfold approvedCount
          rw [filter_setKey_of_both_false _ _ _ _ app hgetA hold hvnew]
          exact h.countEq
        · rw [hA, hT, show (updateApplication st aid
              { status := some .rejected, reviewedAt := some now_ }).1.stats.totalPayouts
              = st.stats.totalPayouts from by rw [hS]]
          unfold payoutSum
          rw [filter_setKey_of_both_false _ _ _ _ app hgetA hold hvnew]
          exact h.sumEq
      · rw [heq]
        have happs2 : (incStatTotalPayouts (incrementTaskCompletions st app.taskId)
            τ.reward).applications = st.applications := by
          show (incrementTaskCompletions st app.taskId).applications = st.applications
          exact apps_incrementTaskCompletions st app.taskId
        have happ2 : getApplication (incStatTotalPayouts
            (incrementTaskCompletions st app.taskId) τ.reward) aid = some app := by
          unfold getApplication
          rw [happs2]
          exact happ
        have hA := apps_updateApplication_of_some
          (incStatTotalPayouts (incrementTaskCompletions st app.taskId) τ.reward) aid
          { status := some .approved, reviewedAt := some now_
            paidAt := some now_, txSignature := some sig } app happ2
        have hT := tasks_updateApplication
          (incStatTotalPayouts (incrementTaskCompletions st app.taskId) τ.reward) aid
          { status := some .approved, reviewedAt := some now_
            paidAt := some now_, txSignature := some sig }
        have hS := stats_updateApplication
          (incStatTotalPayouts (incrementTaskCompletions st app.taskId) τ.reward) aid
          { status := some .approved, reviewedAt := some now_
            paidAt := some now_, txSignature := some sig }
        have htasks2 : (incStatTotalPayouts (incrementTaskCompletions st app.taskId)
            τ.reward).tasks
            = setKey st.tasks app.taskId
                (mergeTask τ { totalCompletions := some (τ.totalCompletions + 1) }) := by
          show (incrementTaskCompletions st app.taskId).tasks = _
          exact tasks_incrementTaskCompletions_of_some st app.taskId τ hτ
        have hCT2 : (incStatTotalPayouts (incrementTaskCompletions st app.taskId)
            τ.reward).stats.totalCompletedTasks = st.stats.totalCompletedTasks + 1 := by
          show (incrementTaskCompletions st app.taskId).stats.totalCompletedTasks = _
          exact (statsCP_incrementTaskCompletions_of_some st app.taskId τ hτ).1
        have hTP2 : (incStatTotalPayouts (incrementTaskCompletions st app.taskId)
            τ.reward).stats.totalPayouts = st.stats.totalPayouts + τ.reward := by
          show (incrementTaskCompletions st app.taskId).stats.totalPayouts + τ.reward = _
          rw [(statsCP_incrementTaskCompletions_of_some st app.taskId τ hτ).2]
        have hmA : (mergeApplication app
            { status := some .approved, reviewedAt := some now_
              paidAt := some now_, txSignature := some sig }).status
            = ApplicationStatus.approved := rfl
        constructor
        · intro p hp hap
          rw [hT, htasks2]
          rw [hA, happs2] at hp
          rcases mem_setKey hp with rfl | hp'
          · show (getKey (setKey st.tasks app.taskId
                (mergeTask τ { totalCompletions := some (τ.totalCompletions + 1) }))
                app.taskId).isSome = true
            rw [getKey_setKey_self]
            rfl
          · by_cases hx : p.2.taskId = app.taskId
            · rw [hx, getKey_setKey_self]
              rfl
            · rw [getKey_setKey_ne _ _ _ _ hx]
              exact h.appTask p hp' hap
        · have hstatCT : (updateApplication (incStatTotalPayouts
              (incrementTaskCompletions st app.taskId) τ.reward) aid
              { status := some .approved, reviewedAt := some now_
                paidAt := some now_, txSignature := some sig }).1.stats.totalCompletedTasks
              = st.stats.totalCompletedTasks + 1 := by
            rw [hS]
            exact hCT2
          rw [hstatCT, hA, happs2,
            approvedCount_setKey_approve st.applications aid app _ hgetA hps hmA,
            h.countEq]
        · have hstatTP : (updateApplication (incStatTotalPayouts
              (incrementTaskCompletions st app.taskId) τ.reward) aid
              { status := some .approved, reviewedAt := some now_
                paidAt := some now_, txSignature := some sig }).1.stats.totalPayouts
              = st.stats.totalPayouts + τ.reward := by
            rw [hS]
            exact hTP2
          rw [hstatTP, hA, happs2, hT, htasks2,
            payoutSum_setKey_approve _ st.applications aid app _ hgetA hps hmA]
          have h1 : rewardOf (setKey st.tasks app.taskId
              (mergeTask τ { totalCompletions := some (τ.totalCompletions + 1) }))
              (mergeApplication app
                { status := some .approved, reviewedAt := some now_
                  paidAt := some now_, txSignature := some sig }).taskId = τ.reward := by
            show rewardOf (setKey st.tasks app.taskId
              (mergeTask τ { totalCompletions := some (τ.totalCompletions + 1) }))
              app.taskId = τ.reward
            simp [rewardOf, getKey_setKey_self, mergeTask]
          rw [h1, payoutSum_congr st.tasks _ st.applications
            (rewardOf_setKey_same st.tasks app.taskId τ
              (mergeTask τ { totalCompletions := some (τ.totalCompletions + 1) }) hτ
              (by simp [mergeTask])),
            h.sumEq]
          exact add_comm _ _
  | registerAgent name wallet txSig walletOk verification i apiKey now_ =>
    simp only [step]
    exact inv4_of_projections st _ h
      (apps_registerAgent st name wallet txSig walletOk verification i apiKey now_)
      (tasks_registerAgent st name wallet txSig walletOk verification i apiKey now_)
      (statsCP_registerAgent st name wallet txSig walletOk verification i apiKey now_).1
      (statsCP_registerAgent st name wallet txSig walletOk verification i apiKey now_).2

theorem inv4_run_aux (ops : List Op) :
    ∀ st : St, Inv4 st → opsOk st ops = true → Inv4 (ops.foldl step st) := by
  induction ops with
  | nil => intro st h _; exact h
  | cons op rest ih =>
    intro st h hops
    simp only [opsOk, Bool.and_eq_true] at hops
    exact ih (step st op) (inv4_step st op h hops.1) hops.2

/-- C4 (amended): along any sequential execution with fresh server ids
that never hits the admin task update with a `reward` field and never
deletes a task, `totalCompletedTasks` equals the number of approved
Applications and `totalPayouts` equals the sum of the rewards of the
approved Applications' Tasks. -/
theorem stats_track_approvals (ops : List Op) (hops : opsOk St0 ops = true) :
    (run ops).stats.totalCompletedTasks = approvedCount (run ops).applications ∧
    (run ops).stats.totalPayouts = payoutSum (run ops).tasks (run ops).applications := by
  have h0 : Inv4 St0 := by
    constructor
    · intro p hp
      simp [St0] at hp
    · rfl
    · rfl
  have h := inv4_run_aux ops St0 h0 hops
  exact ⟨h.countEq, h.sumEq⟩

/-- The task-creation body used by the C4 witness trace. -/
def c4Insert : InsertTask :=
  { title := "T", description := "d", instructions := "i", proofType := "text"
    reward := 2, difficulty := "easy", category := "c", active := true
    maxCompletions := none }

/-- The submission body used by the C4 witness trace. -/
def c4Apply : InsertApplication := { taskId := "t1", walletAddress := "w", proofContent := "p" }

/-- The C4 witness trace: create a task, submit once, approve once. -/
def c4Ops : List Op :=
  [ .createTask c4Insert none "t1" 0
  , .submitApplication c4Apply true "a1" 1
  , .review "a1" .approve 2 (.ok "sig1") ]

theorem stats_track_approvals_witness :
    opsOk St0 c4Ops = true ∧
    ((run c4Ops).stats.totalCompletedTasks = approvedCount (run c4Ops).applications ∧
     (run c4Ops).stats.totalPayouts = payoutSum (run c4Ops).tasks (run c4Ops).applications) :=
  ⟨by decide, stats_track_approvals c4Ops (by decide)⟩

/-- The task-creation body used by the C4 counterexample trace. -/
def c4xInsert : InsertTask :=
  { title := "T", description := "d", instructions := "i", proofType := "text"
    reward := 1, difficulty := "easy", category := "c", active := true
    maxCompletions := none }

/-- The submission body used by the C4 counterexample trace. -/
def c4xApply : InsertApplication := { taskId := "t1", walletAddress := "w", proofContent := "p" }

/-- The C4 counterexample trace: create a task with reward 1, submit,
approve (so `totalPayouts` records 1), then hit the admin task update with
`reward: 2`. -/
def c4xOps : List Op :=
  [ .createTask c4xInsert none "t1" 0
  , .submitApplication c4xApply true "a1" 1
  , .review "a1" .approve 2 (.ok "sig1")
  , .updateTask "t1" { reward := some 2 } ]

/-- C4 counterexample: in the reachable state after `c4xOps`, the stored
`totalPayouts` is 1 while the sum over approved Applications of their
Task's reward is 2, so the claimed equality fails. -/
theorem payouts_mismatch_counterexample :
    (run c4xOps).stats.totalPayouts
      ≠ payoutSum (run c4xOps).tasks (run c4xOps).applications ∧
    (run c4xOps).stats.totalPayouts = 0 + 1 ∧
    payoutSum (run c4xOps).tasks (run c4xOps).applications = 2 + 0 :=
  ⟨by show (0 : ℚ) + 1 ≠ 2 + 0; norm_num, rfl, rfl⟩

end MoltBoss
